import Mathlib

/-!
Verification of the vk-bot-detector crawler core against its specification.

The definitions below are a shallow embedding of the Python source under
`src/crawler/`: pure functions become Lean functions, the regex-based
parsers become deterministic character-list parsers that implement the
same anchored patterns, Python dicts become insertion-ordered association
lists, Python floats in the rate limiter and counter parsing are modelled
as exact rationals, and the network/parsing environment of the crawl
loops is abstracted into explicit function parameters.  Theorems state
the spec claims over these definitions.
-/

namespace VkBot

/-! ## Python string primitives (helpers.py building blocks) -/

/-- Membership in the set of characters stripped by Python `str.strip()`
(the ASCII whitespace characters; the inputs concerned are ASCII). -/
def pySpace (c : Char) : Bool :=
  c = ' ' || c = '\t' || c = '\n' || c = '\r' || c = '\x0b' || c = '\x0c'

/-- Model of Python `str.strip()` on a character list. -/
def pyStripList (l : List Char) : List Char :=
  ((l.dropWhile pySpace).reverse.dropWhile pySpace).reverse

/-- Model of Python `str.strip()`. -/
def pyStrip (s : String) : String :=
  String.mk (pyStripList s.data)

/-- ASCII decimal digit, the regex class on the ASCII inputs concerned. -/
def isDig (c : Char) : Bool :=
  decide ('0' ≤ c ∧ c ≤ '9')

/-- ASCII lowercase letter, the regex class for month and unit words. -/
def isLet (c : Char) : Bool :=
  decide ('a' ≤ c ∧ c ≤ 'z')

/-- Numeric value of a decimal digit string, as read left to right. -/
def digitsToNat (l : List Char) : Nat :=
  l.foldl (fun n c => 10 * n + (c.toNat - '0'.toNat)) 0

/-! ## to_int_safe (helpers.py lines 71-84)

`to_int_safe` first strips the string, removes spaces and commas, and
matches the anchored pattern of an integer with an optional decimal part
and an optional k/K/m/M suffix; on a match the scaled value is truncated
to an integer, otherwise every non-digit character is removed and the
remaining digit string (or 0 when empty) is read.  The Python `float`
value is modelled as an exact rational; the claim proved about it
(totality and nonnegativity) does not depend on rounding. -/

/-- Parse result of the anchored counter pattern: the integral digits,
the fractional digits (empty when absent) and the optional suffix. -/
def parseCounter (l : List Char) : Option (List Char × List Char × Option Char) :=
  let d1 := l.takeWhile isDig
  let r1 := l.dropWhile isDig
  if d1.isEmpty then none
  else
    match r1 with
    | [] => some (d1, [], none)
    | '.' :: r2 =>
      let d2 := r2.takeWhile isDig
      let r3 := r2.dropWhile isDig
      if d2.isEmpty then none
      else
        match r3 with
        | [] => some (d1, d2, none)
        | [c] => if c = 'k' || c = 'K' || c = 'm' || c = 'M' then some (d1, d2, some c) else none
        | _ => none
    | [c] => if c = 'k' || c = 'K' || c = 'm' || c = 'M' then some (d1, [], some c) else none
    | _ => none

/-- Scale factor applied for the recognized suffix. -/
def suffixScale (c : Option Char) : Nat :=
  match c with
  | some c => if c = 'k' || c = 'K' then 1000 else 1000000
  | none => 1

/-- Intermediate text of `to_int_safe`: the stripped input with every
space and comma removed (the local variable `s` after line 74). -/
def cleanCounterText (s : String) : List Char :=
  (pyStripList s.data).filter (fun c => !(c = ' ' || c = ','))

/-- Embedding of `to_int_safe` from helpers.py. -/
def to_int_safe (s : String) : Int :=
  if s = "" then 0
  else
    match parseCounter (cleanCounterText s) with
    | some (d1, d2, suf) =>
      let q : ℚ := (digitsToNat d1 : ℚ) + (digitsToNat d2 : ℚ) / ((10 : ℚ) ^ d2.length)
      ⌊q * (suffixScale suf : ℚ)⌋
    | none => (digitsToNat ((cleanCounterText s).filter isDig) : Int)

theorem digitsToNat_nil : digitsToNat [] = 0 := rfl

theorem mem_pyStripList {c : Char} {l : List Char} (h : c ∈ pyStripList l) : c ∈ l := by
  unfold pyStripList at h
  rw [List.mem_reverse] at h
  have h1 := (@List.dropWhile_sublist _ ((l.dropWhile pySpace).reverse) pySpace).mem h
  rw [List.mem_reverse] at h1
  exact (List.dropWhile_sublist pySpace).mem h1

theorem digitsToNat_eq_zero_of_all_not_dig {l : List Char}
    (h : ∀ c ∈ l, isDig c = false) (hd : l.takeWhile isDig = l) : digitsToNat l = 0 := by
  cases l with
  | nil => rfl
  | cons c cs =>
    exfalso
    have hc : isDig c = false := h c (List.mem_cons_self c cs)
    rw [List.takeWhile_cons, hc] at hd
    simp at hd

/-- When no character of `l` is a digit, the digit filter is empty. -/
theorem filter_isDig_nil {l : List Char} (h : ∀ c ∈ l, isDig c = false) :
    l.filter isDig = [] := by
  rw [List.filter_eq_nil_iff]
  intro c hc
  simp [h c hc]

/-- When no character of `l` is a digit, `parseCounter` fails. -/
theorem parseCounter_none {l : List Char} (h : ∀ c ∈ l, isDig c = false) :
    parseCounter l = none := by
  unfold parseCounter
  cases l with
  | nil => rfl
  | cons c cs =>
    have hc : isDig c = false := h c (List.mem_cons_self c cs)
    simp [List.takeWhile_cons, hc]

/-- C10: to_int_safe is total and nonnegative, and text containing no
digits yields 0.  Totality is witnessed by the embedding being a plain
function (every Python operation on this code path is total). -/
theorem to_int_safe_total_nonneg (s : String) :
    0 ≤ to_int_safe s ∧ ((∀ c ∈ s.data, isDig c = false) → to_int_safe s = 0) := by
  constructor
  · unfold to_int_safe
    split
    · exact le_refl 0
    · cases hp : parseCounter (cleanCounterText s) with
      | none => simp [hp]
      | some v =>
        obtain ⟨d1, d2, suf⟩ := v
        simp only [hp]
        apply Int.floor_nonneg.mpr
        have h1 : (0 : ℚ) ≤ (digitsToNat d1 : ℚ) + (digitsToNat d2 : ℚ) / ((10 : ℚ) ^ d2.length) := by
          positivity
        have h2 : (0 : ℚ) ≤ (suffixScale suf : ℚ) := by positivity
        exact mul_nonneg h1 h2
  · intro h
    unfold to_int_safe
    split
    · rfl
    · have ht : ∀ c ∈ cleanCounterText s, isDig c = false := by
        intro c hc
        exact h c (mem_pyStripList (List.mem_of_mem_filter hc))
      rw [parseCounter_none ht, filter_isDig_nil ht]
      rfl

/-- Witness for C10 at the concrete digit-free input "abc". -/
theorem to_int_safe_total_nonneg_witness :
    0 ≤ to_int_safe "abc" ∧ to_int_safe "abc" = 0 :=
  ⟨(to_int_safe_total_nonneg "abc").1,
   (to_int_safe_total_nonneg "abc").2 (by decide)⟩

/-! ## AdaptiveRateLimiter (session_pool.py lines 123-212)

The limiter state is shared mutable state behind a lock; here it is the
record of its numeric fields, with Python floats modelled as exact
rationals.  The constructor fixes `min_delay = 0.01`.  `wait()` and the
circuit-breaker sleep only consume time (`last_request_time` and the
sleeps are not part of the modelled state, no delay field changes). -/

structure AdaptiveRateLimiter where
  current_delay : ℚ
  initial_delay : ℚ
  max_delay : ℚ
  min_delay : ℚ
  error_count : ℕ
  success_count : ℕ

/-- Embedding of `AdaptiveRateLimiter.__init__` (min_delay is fixed to 0.01). -/
def AdaptiveRateLimiter.init (initial_delay max_delay : ℚ) : AdaptiveRateLimiter :=
  { current_delay := initial_delay
    initial_delay := initial_delay
    max_delay := max_delay
    min_delay := 1 / 100
    error_count := 0
    success_count := 0 }

/-- Embedding of `report_success`. -/
def AdaptiveRateLimiter.report_success (st : AdaptiveRateLimiter) : AdaptiveRateLimiter :=
  let st1 := { st with success_count := st.success_count + 1, error_count := 0 }
  if 10 ≤ st1.success_count then
    { st1 with
      current_delay := max st1.min_delay (st1.current_delay * (9 / 10))
      success_count := 0 }
  else st1

/-- Embedding of `report_error` (the terminal `error_count >= 3` branch
only sleeps, so it does not change the modelled state). -/
def AdaptiveRateLimiter.report_error (status : Option Int) (st : AdaptiveRateLimiter) :
    AdaptiveRateLimiter :=
  let st1 := { st with error_count := st.error_count + 1, success_count := 0 }
  if status = some 429 then
    { st1 with current_delay := min st1.max_delay (st1.current_delay * 3) }
  else if status = some 403 ∨ status = some 503 then
    { st1 with current_delay := min st1.max_delay (st1.current_delay * 2) }
  else
    { st1 with current_delay := min st1.max_delay (st1.current_delay * (3 / 2)) }

/-- Embedding of `wait`: it only paces (sleeps and stamps
`last_request_time`), leaving every modelled field unchanged. -/
def AdaptiveRateLimiter.wait (st : AdaptiveRateLimiter) : AdaptiveRateLimiter := st

/-- One call observable on the limiter. -/
inductive LimiterCall where
  | success : LimiterCall
  | error : Option Int → LimiterCall
  | wait : LimiterCall

/-- Apply one call to the limiter state. -/
def applyCall (st : AdaptiveRateLimiter) : LimiterCall → AdaptiveRateLimiter
  | .success => st.report_success
  | .error status => AdaptiveRateLimiter.report_error status st
  | .wait => st.wait

theorem report_success_of_small (st : AdaptiveRateLimiter) (h : st.success_count + 1 < 10) :
    st.report_success = { st with success_count := st.success_count + 1, error_count := 0 } := by
  simp [AdaptiveRateLimiter.report_success, Nat.not_le.mpr h]

theorem iter_report_success (st : AdaptiveRateLimiter) (h0 : st.success_count = 0)
    (k : ℕ) (hk1 : 1 ≤ k) (hk9 : k ≤ 9) :
    AdaptiveRateLimiter.report_success^[k] st =
      { st with success_count := k, error_count := 0 } := by
  induction k with
  | zero => omega
  | succ n ih =>
    cases Nat.eq_or_lt_of_le hk1 with
    | inl h1 =>
      have hn : n = 0 := by omega
      subst hn
      rw [Function.iterate_one, report_success_of_small st (by omega)]
      simp [h0]
    | inr h1 =>
      rw [Function.iterate_succ_apply', ih (by omega) (by omega)]
      rw [report_success_of_small _ (by simp; omega)]

/-- C3: with no intervening report_error, the first nine report_success
calls leave current_delay unchanged, and the 10th multiplies it by 0.9
clamped below at min_delay and resets the success streak to zero; when
the delay started above min_delay it strictly decreases. -/
theorem report_success_decay (st : AdaptiveRateLimiter) (h0 : st.success_count = 0) :
    (∀ k, 1 ≤ k → k ≤ 9 →
      (AdaptiveRateLimiter.report_success^[k] st).current_delay = st.current_delay) ∧
    (AdaptiveRateLimiter.report_success^[10] st).current_delay
      = max st.min_delay (st.current_delay * (9 / 10)) ∧
    (AdaptiveRateLimiter.report_success^[10] st).success_count = 0 ∧
    (0 < st.min_delay → st.min_delay < st.current_delay →
      (AdaptiveRateLimiter.report_success^[10] st).current_delay < st.current_delay) := by
  have h9 := iter_report_success st h0 9 (by omega) (by omega)
  have h10 : AdaptiveRateLimiter.report_success^[10] st =
      { st with
        current_delay := max st.min_delay (st.current_delay * (9 / 10))
        error_count := 0
        success_count := 0 } := by
    rw [show (10 : ℕ) = 9 + 1 from rfl, Function.iterate_succ_apply', h9]
    simp [AdaptiveRateLimiter.report_success]
  refine ⟨fun k hk1 hk9 => ?_, by rw [h10], by rw [h10], fun hpos hlt => ?_⟩
  · rw [iter_report_success st h0 k hk1 hk9]
  · rw [h10]
    have hd : (0 : ℚ) < st.current_delay := lt_trans hpos hlt
    exact max_lt hlt (by nlinarith)

/-- Witness for C3 at the constructed limiter (initial_delay 1, max 5):
ten successes strictly decrease the delay. -/
theorem report_success_decay_witness :
    (AdaptiveRateLimiter.report_success^[10] (AdaptiveRateLimiter.init 1 5)).current_delay
      < (AdaptiveRateLimiter.init 1 5).current_delay :=
  (report_success_decay (AdaptiveRateLimiter.init 1 5) rfl).2.2.2
    (by norm_num [AdaptiveRateLimiter.init])
    (by norm_num [AdaptiveRateLimiter.init])

/-- Invariant of C4: the delay lies in the band, the band is well formed. -/
def DelayInBand (st : AdaptiveRateLimiter) : Prop :=
  0 ≤ st.min_delay ∧ st.min_delay ≤ st.max_delay ∧
    st.min_delay ≤ st.current_delay ∧ st.current_delay ≤ st.max_delay

theorem report_success_fields (st : AdaptiveRateLimiter) :
    st.report_success.min_delay = st.min_delay ∧
      st.report_success.max_delay = st.max_delay ∧
      (st.report_success.current_delay = st.current_delay ∨
        st.report_success.current_delay = max st.min_delay (st.current_delay * (9 / 10))) := by
  simp only [AdaptiveRateLimiter.report_success]
  split
  · exact ⟨rfl, rfl, Or.inr rfl⟩
  · exact ⟨rfl, rfl, Or.inl rfl⟩

theorem report_error_fields (status : Option Int) (st : AdaptiveRateLimiter) :
    (AdaptiveRateLimiter.report_error status st).min_delay = st.min_delay ∧
      (AdaptiveRateLimiter.report_error status st).max_delay = st.max_delay ∧
      ∃ k : ℚ, 1 ≤ k ∧ (AdaptiveRateLimiter.report_error status st).current_delay
        = min st.max_delay (st.current_delay * k) := by
  simp only [AdaptiveRateLimiter.report_error]
  split
  · exact ⟨rfl, rfl, 3, by norm_num, rfl⟩
  · split
    · exact ⟨rfl, rfl, 2, by norm_num, rfl⟩
    · exact ⟨rfl, rfl, 3 / 2, by norm_num, rfl⟩

theorem applyCall_preserves (st : AdaptiveRateLimiter) (c : LimiterCall)
    (h : DelayInBand st) :
    DelayInBand (applyCall st c) ∧ (applyCall st c).min_delay = st.min_delay ∧
      (applyCall st c).max_delay = st.max_delay := by
  obtain ⟨h0, hmm, hlo, hhi⟩ := h
  have hd0 : (0 : ℚ) ≤ st.current_delay := le_trans h0 hlo
  cases c with
  | wait => exact ⟨⟨h0, hmm, hlo, hhi⟩, rfl, rfl⟩
  | success =>
    obtain ⟨e1, e2, hd⟩ := report_success_fields st
    simp only [applyCall]
    refine ⟨⟨by rw [e1]; exact h0, by rw [e1, e2]; exact hmm, ?_, ?_⟩, e1, e2⟩
    · rw [e1]
      cases hd with
      | inl e => rw [e]; exact hlo
      | inr e => rw [e]; exact le_max_left _ _
    · rw [e2]
      cases hd with
      | inl e => rw [e]; exact hhi
      | inr e =>
        rw [e]
        exact max_le hmm (le_trans (mul_le_of_le_one_right hd0 (by norm_num)) hhi)
  | error status =>
    obtain ⟨e1, e2, k, hk, hd⟩ := report_error_fields status st
    simp only [applyCall]
    refine ⟨⟨by rw [e1]; exact h0, by rw [e1, e2]; exact hmm, ?_, ?_⟩, e1, e2⟩
    · rw [e1, hd]
      exact le_min hmm (le_trans hlo (le_mul_of_one_le_right hd0 hk))
    · rw [e2, hd]
      exact min_le_left _ _

theorem foldl_applyCall_inv (calls : List LimiterCall) (st : AdaptiveRateLimiter)
    (h : DelayInBand st) :
    DelayInBand (calls.foldl applyCall st) ∧
      (calls.foldl applyCall st).min_delay = st.min_delay ∧
      (calls.foldl applyCall st).max_delay = st.max_delay := by
  induction calls generalizing st with
  | nil => exact ⟨h, rfl, rfl⟩
  | cons c cs ih =>
    obtain ⟨h1, e1, e2⟩ := applyCall_preserves st c h
    obtain ⟨h2, e3, e4⟩ := ih (applyCall st c) h1
    exact ⟨h2, by rw [List.foldl_cons, e3, e1], by rw [List.foldl_cons, e4, e2]⟩

/-- C4: for every finite sequence of report_success, report_error with
any status, and wait calls, current_delay stays within
[min_delay, max_delay]; a single report_error(429) multiplies the delay
by 3.0 clamped above at max_delay. -/
theorem current_delay_bounded (st : AdaptiveRateLimiter)
    (h : DelayInBand st) (calls : List LimiterCall) :
    st.min_delay ≤ (calls.foldl applyCall st).current_delay ∧
      (calls.foldl applyCall st).current_delay ≤ st.max_delay ∧
      (AdaptiveRateLimiter.report_error (some 429) st).current_delay
        = min st.max_delay (st.current_delay * 3) := by
  obtain ⟨⟨_, _, hlo, hhi⟩, e1, e2⟩ := foldl_applyCall_inv calls st h
  refine ⟨by rw [← e1]; exact hlo, by rw [← e2]; exact hhi, ?_⟩
  simp [AdaptiveRateLimiter.report_error]

/-- Witness for C4 at the constructed limiter and a concrete call burst. -/
theorem current_delay_bounded_witness :
    (AdaptiveRateLimiter.init 1 5).min_delay ≤
      (([LimiterCall.error (some 429), LimiterCall.success, LimiterCall.wait,
         LimiterCall.error none]).foldl applyCall (AdaptiveRateLimiter.init 1 5)).current_delay ∧
      (([LimiterCall.error (some 429), LimiterCall.success, LimiterCall.wait,
         LimiterCall.error none]).foldl applyCall (AdaptiveRateLimiter.init 1 5)).current_delay
        ≤ (AdaptiveRateLimiter.init 1 5).max_delay ∧
      (AdaptiveRateLimiter.report_error (some 429) (AdaptiveRateLimiter.init 1 5)).current_delay
        = min (AdaptiveRateLimiter.init 1 5).max_delay
            ((AdaptiveRateLimiter.init 1 5).current_delay * 3) :=
  current_delay_bounded (AdaptiveRateLimiter.init 1 5)
    (by refine ⟨by norm_num [AdaptiveRateLimiter.init], by norm_num [AdaptiveRateLimiter.init],
      by norm_num [AdaptiveRateLimiter.init], by norm_num [AdaptiveRateLimiter.init]⟩) _

/-! ## parallel_map (pipeline.py lines 412-443)

Each submitted task either returns a value or raises; `as_completed`
yields the futures in whatever order the pool completes them, a raising
task is logged and skipped, and the surviving results are appended in
completion order.  The task body is modelled as a fallible function
`fn : A -> Except E B` and the completion order as the list in which the
pool yields the submitted items, a permutation of `items`. -/

/-- Embedding of the result-collection loop of `parallel_map`: walk the
futures in completion order, keep the value of every task that did not
raise, drop (and log) every task that raised. -/
def parallel_map {A E B : Type} (fn : A → Except E B) (completionOrder : List A) : List B :=
  completionOrder.filterMap (fun it => (fn it).toOption)

/-- C9: for every item list, task function and completion order,
parallel_map returns exactly the values of the non-raising items (as a
permutation, i.e. up to the completion order the pool yields), and a
raising item neither aborts the others nor removes their values. -/
theorem parallel_map_results {A E B : Type} (fn : A → Except E B)
    (items completionOrder : List A) (h : completionOrder.Perm items) :
    (parallel_map fn completionOrder).Perm
        (items.filterMap (fun it => (fn it).toOption)) ∧
      (∀ it ∈ items, ∀ b, fn it = Except.ok b → b ∈ parallel_map fn completionOrder) ∧
      (∀ b ∈ parallel_map fn completionOrder, ∃ it ∈ items, fn it = Except.ok b) := by
  refine ⟨h.filterMap _, fun it hit b hb => ?_, fun b hb => ?_⟩
  · have : b ∈ items.filterMap (fun it => (fn it).toOption) := by
      rw [List.mem_filterMap]
      exact ⟨it, hit, by rw [hb]; rfl⟩
    exact ((h.filterMap (fun it => (fn it).toOption)).mem_iff).mpr this
  · have hb2 : b ∈ items.filterMap (fun it => (fn it).toOption) :=
      ((h.filterMap (fun it => (fn it).toOption)).mem_iff).mp hb
    rw [List.mem_filterMap] at hb2
    obtain ⟨it, hit, he⟩ := hb2
    refine ⟨it, hit, ?_⟩
    cases hf : fn it with
    | error e => rw [hf] at he; simp [Except.toOption] at he
    | ok v => rw [hf] at he; simpa [Except.toOption] using he

/-- Witness for C9: three tasks, the middle one raising, completed in
reversed order; the two surviving values are returned. -/
theorem parallel_map_results_witness :
    (parallel_map (fun n : Nat => if n = 2 then Except.error () else Except.ok (n * 10))
        [3, 2, 1]).Perm
      ([1, 2, 3].filterMap
        (fun n => (if n = 2 then (Except.error () : Except Unit Nat)
          else Except.ok (n * 10)).toOption)) ∧
      (∀ it ∈ [1, 2, 3], ∀ b,
        (if it = 2 then (Except.error () : Except Unit Nat) else Except.ok (it * 10))
          = Except.ok b →
        b ∈ parallel_map
          (fun n : Nat => if n = 2 then Except.error () else Except.ok (n * 10)) [3, 2, 1]) ∧
      (∀ b ∈ parallel_map
          (fun n : Nat => if n = 2 then Except.error () else Except.ok (n * 10)) [3, 2, 1],
        ∃ it ∈ [1, 2, 3],
          (if it = 2 then (Except.error () : Except Unit Nat) else Except.ok (it * 10))
            = Except.ok b) :=
  parallel_map_results
    (fun n : Nat => if n = 2 then Except.error () else Except.ok (n * 10))
    [1, 2, 3] [3, 2, 1] (by decide)

/-! ## unwrap_ajax_html (helpers.py lines 197-205)

The payload is stripped; when empty or not starting with a brace it is
returned as is (the stripped text).  Otherwise `json.loads` is applied
inside a try block: the "data" field (defaulting to an empty array) is
iterated and its string elements concatenated; any exception inside the
try (parse failure, non-dict value, non-iterable data) returns the
stripped text.  `json.loads` is an external library call, abstracted as
the parameter `loads`, with `none` modelling a raised parse error. -/

/-- JSON values, the shape of values `json.loads` can return. -/
inductive Json where
  | null : Json
  | bool : Bool → Json
  | num : Int → Json
  | str : String → Json
  | arr : List Json → Json
  | obj : List (String × Json) → Json

/-- Python `dict.get` on the parsed JSON object (key bindings of a dict
are unique, so the first binding is the binding). -/
def jsonGet (kvs : List (String × Json)) (k : String) : Option Json :=
  (kvs.find? (fun kv => kv.1 = k)).map (fun kv => kv.2)

/-- The string elements of an iterated JSON value, concatenated:
an array yields its string elements, a string its characters (each a
one-character string in Python), an object its keys; the other values
are not iterable, so the Python expression raises (`none` here). -/
def joinStrElems : Json → Option String
  | .arr xs => some (String.join (xs.filterMap (fun j =>
      match j with | .str s => some s | _ => none)))
  | .str s => some s
  | .obj kvs => some (String.join (kvs.map (fun kv => kv.1)))
  | _ => none

/-- The test `t.startswith` against the one-character opening-brace
text, on the underlying characters. -/
def startsWithBrace (l : List Char) : Bool :=
  match l with
  | [] => false
  | c :: _ => c = '\x7b'

/-- Embedding of `unwrap_ajax_html`. -/
def unwrap_ajax_html (loads : String → Option Json) (payload : String) : String :=
  let t := pyStrip payload
  if t = "" then t
  else if ¬ startsWithBrace t.data then t
  else
    match loads t with
    | none => t
    | some (.obj kvs) =>
      match joinStrElems ((jsonGet kvs "data").getD (.arr [])) with
      | some out => out
      | none => t
    | some _ => t

/-- Counterexample to C8: a plain-HTML payload with leading whitespace
is NOT returned unchanged; the stripped text is returned instead. -/
theorem unwrap_ajax_html_not_unchanged :
    unwrap_ajax_html (fun _ => none) " <div>" = "<div>" ∧
      ("<div>" : String) ≠ " <div>" := by
  constructor
  · decide
  · decide

/-- C8 (amended): a JSON-envelope payload whose data field is an array
yields the concatenation, in order, of the string elements of that
array; a payload that is not a JSON envelope (stripped text empty, not
starting with a brace, or failing to parse) yields the stripped payload
(hence the payload itself exactly when it has no surrounding
whitespace). -/
theorem unwrap_ajax_html_normalizes (loads : String → Option Json) (payload : String) :
    (pyStrip payload = "" ∨ startsWithBrace (pyStrip payload).data = false ∨
        loads (pyStrip payload) = none →
      unwrap_ajax_html loads payload = pyStrip payload) ∧
    (∀ kvs xs, loads (pyStrip payload) = some (.obj kvs) →
      jsonGet kvs "data" = some (.arr xs) →
      startsWithBrace (pyStrip payload).data = true → pyStrip payload ≠ "" →
      unwrap_ajax_html loads payload
        = String.join (xs.filterMap (fun j =>
            match j with | .str s => some s | _ => none))) := by
  constructor
  · intro h
    unfold unwrap_ajax_html
    rcases h with h | h | h
    · simp [h]
    · by_cases he : pyStrip payload = ""
      · simp [he]
      · simp [he, h]
    · by_cases he : pyStrip payload = ""
      · simp [he]
      · by_cases hs : startsWithBrace (pyStrip payload).data
        · simp [he, hs, h]
        · simp [he, hs]
  · intro kvs xs hp hd hs he
    unfold unwrap_ajax_html
    simp [he, hs, hp, hd, joinStrElems]

/-- Witness for C8 (amended) at concrete payloads: a plain-HTML payload
and an envelope whose data array mixes strings and a number. -/
theorem unwrap_ajax_html_normalizes_witness :
    unwrap_ajax_html (fun _ => none) "plain" = pyStrip "plain" ∧
      unwrap_ajax_html
        (fun _ => some (.obj [("data", .arr [.str "a", .num 7, .str "b"])]))
        "\x7bjson" = String.join ([Json.str "a", Json.num 7, Json.str "b"].filterMap
          (fun j => match j with | .str s => some s | _ => none)) :=
  ⟨(unwrap_ajax_html_normalizes (fun _ => none) "plain").1 (by
      right; left; decide),
   (unwrap_ajax_html_normalizes
      (fun _ => some (.obj [("data", .arr [.str "a", .num 7, .str "b"])])) "\x7bjson").2
      [("data", .arr [.str "a", .num 7, .str "b"])]
      [.str "a", .num 7, .str "b"] rfl rfl (by decide) (by decide)⟩

/-! ## Pagination crawl (comment_crawling.py, post_crawling.py)

The crawl loops drive HTTP fetches and the HTML entity extractor.  The
embedding keeps the loop, dedup-map and ordering logic exactly as in the
source and abstracts the environment: the page type, the fetch functions
(`http_get_initial`, `http_get_more`, `http_get_thread_page`), the
extractor (`parse_initial_comments_from_html`,
`parse_initial_posts_from_html`) and the thread-link scanner
(`_extract_threads_from_html`) become fields of an environment record.
Entities carry the fields the loop and final ordering consult: the
natural key, the thread root and the timestamp.  The Python dict is an
insertion-ordered association list (`d[k] = v` replaces in place,
new keys append at the end).  The unbounded while loops take a fuel
argument bounding the iteration count. -/

/-- The fields of one parsed comment consulted by the crawl loop and
the final ordering (comment_id is the natural key; owner_id is stamped
by the loop on insertion, as on lines 285 and 321). -/
structure Comment where
  comment_id : ℕ
  reply_to_comment_id : Option ℕ
  timestamp : ℤ
  owner_id : ℤ

/-- The fields of one parsed post consulted by the crawl loop and the
final ordering (the natural key is the pair (owner_id, post_id)). -/
structure Post where
  owner_id : ℤ
  post_id : ℕ
  timestamp : ℤ

/-- Python dict membership test `k in d`. -/
def dictContains {K V : Type} [DecidableEq K] (d : List (K × V)) (k : K) : Bool :=
  d.any (fun kv => kv.1 = k)

/-- Python dict assignment `d[k] = v`: replace in place when the key is
present, append otherwise. -/
def dictSet {K V : Type} [DecidableEq K] : List (K × V) → K → V → List (K × V)
  | [], k, v => [(k, v)]
  | (k0, v0) :: rest, k, v =>
    if k0 = k then (k0, v) :: rest else (k0, v0) :: dictSet rest k v

/-- Python `d.values()` in insertion order. -/
def dictValues {K V : Type} (d : List (K × V)) : List V :=
  d.map (fun kv => kv.2)

theorem dictContains_iff {K V : Type} [DecidableEq K] (d : List (K × V)) (k : K) :
    dictContains d k = true ↔ k ∈ d.map Prod.fst := by
  simp [dictContains, List.any_eq_true, List.mem_map]

theorem dictSet_map_fst {K V : Type} [DecidableEq K] (d : List (K × V)) (k : K) (v : V) :
    (dictSet d k v).map Prod.fst
      = if k ∈ d.map Prod.fst then d.map Prod.fst else d.map Prod.fst ++ [k] := by
  induction d with
  | nil => simp [dictSet]
  | cons kv rest ih =>
    obtain ⟨k0, v0⟩ := kv
    by_cases h : k0 = k
    · subst h
      simp [dictSet]
    · simp only [dictSet, if_neg h, List.map_cons, ih]
      by_cases h2 : k ∈ rest.map Prod.fst
      · simp [h2, Ne.symm h]
      · simp [h2, Ne.symm h]

theorem mem_dictSet {K V : Type} [DecidableEq K] {d : List (K × V)} {k : K} {v : V}
    {kv : K × V} (h : kv ∈ dictSet d k v) : kv ∈ d ∨ kv = (k, v) := by
  induction d with
  | nil => simpa [dictSet] using h
  | cons kv0 rest ih =>
    obtain ⟨k0, v0⟩ := kv0
    simp only [dictSet] at h
    by_cases he : k0 = k
    · rw [if_pos he] at h
      rcases List.mem_cons.mp h with h | h
      · exact Or.inr (by rw [h, he])
      · exact Or.inl (List.mem_cons_of_mem _ h)
    · rw [if_neg he] at h
      rcases List.mem_cons.mp h with h | h
      · exact Or.inl (by rw [h]; exact List.mem_cons_self _ _)
      · rcases ih h with h2 | h2
        · exact Or.inl (List.mem_cons_of_mem _ h2)
        · exact Or.inr h2

/-- The abstract page environment of one `crawl_comments_for_post` run:
`initial` is the first page fetched by `http_get_initial`, `more o` the
page fetched by `http_get_more` at offset `o`, `thread t o` the page of
thread `t` fetched by `http_get_thread_page` at offset `o`; `parse` is
`parse_initial_comments_from_html` (the comments list of its result),
`threadsOf` is `_extract_threads_from_html` and `len` the payload
length. -/
structure CommentEnv (Page : Type) where
  initial : Page
  more : ℕ → Page
  thread : ℕ → ℕ → Page
  parse : Page → List Comment
  threadsOf : Page → List (ℕ × ℕ)
  len : Page → ℕ

/-- The abstract page environment of one `crawl_posts` run. -/
structure PostEnv (Page : Type) where
  initial : Page
  more : ℕ → Page
  parse : Page → List Post
  len : Page → ℕ

/-- One dedup-merge pass of a parsed comment batch into the map
(lines 282-287 and 363-369): keys already present are skipped, new
entries are stamped with owner_id, appended, and counted. -/
def insertNewComments (owner : ℤ) (d : List (ℕ × Comment)) (batch : List Comment) :
    List (ℕ × Comment) × ℕ :=
  batch.foldl
    (fun acc c =>
      if dictContains acc.1 c.comment_id then acc
      else (acc.1 ++ [(c.comment_id, { c with owner_id := owner })], acc.2 + 1))
    (d, 0)

/-- One dedup-merge pass of a parsed post batch (lines 247-252). -/
def insertNewPosts (d : List ((ℤ × ℕ) × Post)) (batch : List Post) :
    List ((ℤ × ℕ) × Post) × ℕ :=
  batch.foldl
    (fun acc p =>
      if dictContains acc.1 (p.owner_id, p.post_id) then acc
      else (acc.1 ++ [((p.owner_id, p.post_id), p)], acc.2 + 1))
    (d, 0)

/-- Seeding of the comment map from the initial page (lines 320-322):
plain dict assignment of each parsed comment, owner stamped. -/
def seedComments (owner : ℤ) (batch : List Comment) : List (ℕ × Comment) :=
  batch.foldl (fun d c => dictSet d c.comment_id { c with owner_id := owner }) []

/-- Embedding of `_crawl_thread_into` (lines 252-294): fetch the thread
page, stop on a short payload, merge the batch into the shared map,
stop when the page contributed nothing new, else loop (the source never
advances the thread offset, so the same offset is fetched again).
`fuel` bounds the iterations of the unbounded while loop. -/
def crawl_thread_into {Page : Type} (env : CommentEnv Page) (owner : ℤ)
    (thread_id offset : ℕ) : ℕ → List (ℕ × Comment) → List (ℕ × Comment)
  | 0, by_id => by_id
  | fuel + 1, by_id =>
    let html := env.thread thread_id offset
    if env.len html < 30 then by_id
    else
      let p := insertNewComments owner by_id (env.parse html)
      if p.2 = 0 then p.1
      else crawl_thread_into env owner thread_id offset fuel p.1

/-- Crawl every discovered thread of a page into the shared map
(lines 325-337 and 373-385). -/
def crawlThreads {Page : Type} (env : CommentEnv Page) (owner : ℤ) (tfuel : ℕ)
    (d : List (ℕ × Comment)) (threads : List (ℕ × ℕ)) : List (ℕ × Comment) :=
  threads.foldl (fun d tp => crawl_thread_into env owner tp.1 tp.2 tfuel d) d

/-- The Python truthiness test `if max_items and len(d) >= max_items`. -/
def capReached (max_items : Option ℕ) (n : ℕ) : Bool :=
  match max_items with
  | none => false
  | some m => decide (m ≠ 0 ∧ m ≤ n)

/-- Embedding of the outer pagination while loop of
`crawl_comments_for_post` (lines 341-392): cap check, fetch, short
payload check, merge counting new entries, crawl discovered threads into
the same map, stop when the flat page contributed zero new comments,
else advance the offset by the page size. -/
def commentsLoop {Page : Type} (env : CommentEnv Page) (owner : ℤ)
    (max_comments : Option ℕ) (tfuel : ℕ) :
    ℕ → ℕ → List (ℕ × Comment) → List (ℕ × Comment)
  | 0, _, m => m
  | fuel + 1, offset, m =>
    if capReached max_comments m.length then m
    else
      let html := env.more offset
      if env.len html < 50 then m
      else
        let batch := env.parse html
        let page_size := if batch.length = 0 then 10 else batch.length
        let p := insertNewComments owner m batch
        let m2 := crawlThreads env owner tfuel p.1 (env.threadsOf html)
        if p.2 = 0 then m2
        else commentsLoop env owner max_comments tfuel fuel (offset + page_size) m2

/-- The comment map collected by one whole `crawl_comments_for_post`
run before the final ordering (lines 310-392). -/
def crawl_comments_map {Page : Type} (env : CommentEnv Page) (owner : ℤ)
    (max_comments : Option ℕ) (offset0 tfuel fuel : ℕ) : List (ℕ × Comment) :=
  let m0 := seedComments owner (env.parse env.initial)
  let m1 := crawlThreads env owner tfuel m0 (env.threadsOf env.initial)
  commentsLoop env owner max_comments tfuel fuel offset0 m1

/-- The comparison key of the final comment ordering (line 396):
the pair (reply_to_comment_id is not None, timestamp), ascending. -/
def commentLe (c1 c2 : Comment) : Bool :=
  (!c1.reply_to_comment_id.isSome && c2.reply_to_comment_id.isSome) ||
    (c1.reply_to_comment_id.isSome = c2.reply_to_comment_id.isSome &&
      decide (c1.timestamp ≤ c2.timestamp))

/-- The Python slice `xs[:max]` (`xs[:None]` is the whole list). -/
def pySlice {A : Type} (max_items : Option ℕ) (l : List A) : List A :=
  match max_items with
  | none => l
  | some n => l.take n

/-- Embedding of `crawl_comments_for_post` (lines 297-402): collect the
map, sort its values by (is_reply, timestamp) ascending (Python list
sort is the stable sort by the key, i.e. merge sort with this total
preorder), then truncate when the map is nonempty (line 398-399). -/
def crawl_comments_for_post {Page : Type} (env : CommentEnv Page) (owner : ℤ)
    (max_comments : Option ℕ) (offset0 tfuel fuel : ℕ) : List Comment :=
  let m := crawl_comments_map env owner max_comments offset0 tfuel fuel
  let comments := (dictValues m).mergeSort commentLe
  if m.isEmpty then comments else pySlice max_comments comments

/-- Embedding of the pagination while loop of `crawl_posts`
(lines 226-261); unlike the comment loop, the page-size estimate is
carried across iterations and there are no threads. -/
def postsLoop {Page : Type} (env : PostEnv Page) (max_posts : Option ℕ) :
    ℕ → ℕ → ℕ → List ((ℤ × ℕ) × Post) → List ((ℤ × ℕ) × Post)
  | 0, _, _, m => m
  | fuel + 1, offset, page_size, m =>
    if capReached max_posts m.length then m
    else
      let html := env.more offset
      if env.len html < 50 then m
      else
        let batch := env.parse html
        let page_size2 := if batch.length = 0 then page_size else batch.length
        let p := insertNewPosts m batch
        if p.2 = 0 then p.1
        else postsLoop env max_posts fuel (offset + page_size2) page_size2 p.1

/-- The post map collected by one `crawl_posts` run before the final
ordering (lines 212-261); the initial offset parameter is overwritten
with the first page size (line 221). -/
def crawl_posts_map {Page : Type} (env : PostEnv Page) (max_posts : Option ℕ)
    (fuel : ℕ) : List ((ℤ × ℕ) × Post) :=
  let batch := env.parse env.initial
  let m0 := batch.foldl (fun d p => dictSet d (p.owner_id, p.post_id) p) []
  let page_size := if batch.length = 0 then 10 else batch.length
  postsLoop env max_posts fuel page_size page_size m0

/-- The comparison key of the final post ordering (line 264): timestamp
descending (Python stable sort with reverse=True). -/
def postLe (p1 p2 : Post) : Bool :=
  decide (p2.timestamp ≤ p1.timestamp)

/-- The Python truthiness-guarded truncation `if max_posts: posts =
posts[:max_posts]` (lines 265-266): None and 0 both skip it. -/
def pyTruncPosts (max_posts : Option ℕ) (l : List Post) : List Post :=
  match max_posts with
  | none => l
  | some n => if n = 0 then l else l.take n

/-- Embedding of `crawl_posts` (lines 200-268). -/
def crawl_posts {Page : Type} (env : PostEnv Page) (max_posts : Option ℕ)
    (fuel : ℕ) : List Post :=
  let m := crawl_posts_map env max_posts fuel
  pyTruncPosts max_posts ((dictValues m).mergeSort postLe)

/-- The natural key of a comment inside a crawl run. -/
def cKey (c : Comment) : ℕ := c.comment_id

/-- The natural key of a post. -/
def pKey (p : Post) : ℤ × ℕ := (p.owner_id, p.post_id)

/-- Well-formedness of a dedup map: the keys are pairwise distinct and
every stored entity sits under its own natural key. -/
def DictInv {K V : Type} (keyOf : V → K) (d : List (K × V)) : Prop :=
  (d.map Prod.fst).Nodup ∧ ∀ kv ∈ d, keyOf kv.2 = kv.1

theorem DictInv.nil {K V : Type} (keyOf : V → K) : DictInv keyOf [] :=
  ⟨List.nodup_nil, by simp⟩

theorem dictSet_inv {K V : Type} [DecidableEq K] {keyOf : V → K}
    {d : List (K × V)} {k : K} {v : V} (h : DictInv keyOf d) (hv : keyOf v = k) :
    DictInv keyOf (dictSet d k v) := by
  obtain ⟨h1, h2⟩ := h
  constructor
  · rw [dictSet_map_fst]
    split
    · exact h1
    · rw [List.nodup_append]
      exact ⟨h1, List.nodup_singleton k, List.disjoint_singleton.mpr (by assumption)⟩
  · intro kv hkv
    rcases mem_dictSet hkv with hm | hm
    · exact h2 kv hm
    · rw [hm]
      exact hv

theorem append_new_inv {K V : Type} {keyOf : V → K}
    {d : List (K × V)} {k : K} {v : V} (h : DictInv keyOf d)
    (hk : k ∉ d.map Prod.fst) (hv : keyOf v = k) :
    DictInv keyOf (d ++ [(k, v)]) := by
  constructor
  · rw [List.map_append, List.nodup_append]
    exact ⟨h.1, List.nodup_singleton k, by simpa [List.disjoint_singleton] using hk⟩
  · intro kv hkv
    rcases List.mem_append.mp hkv with hm | hm
    · exact h.2 kv hm
    · rw [List.mem_singleton.mp hm]
      exact hv

theorem foldl_pair_inv {A B : Type} (P : A → Prop) (f : A × ℕ → B → A × ℕ)
    (hstep : ∀ st b, P st.1 → P (f st b).1) :
    ∀ (l : List B) (st : A × ℕ), P st.1 → P ((l.foldl f st).1) := by
  intro l
  induction l with
  | nil => exact fun st h => h
  | cons b bs ih => exact fun st h => ih _ (hstep st b h)

theorem insertNewComments_inv (owner : ℤ) (d : List (ℕ × Comment)) (b : List Comment)
    (h : DictInv cKey d) : DictInv cKey (insertNewComments owner d b).1 := by
  refine foldl_pair_inv (DictInv cKey) _ ?_ b (d, 0) h
  intro st c hst
  dsimp only
  split
  · exact hst
  · exact append_new_inv hst
      (fun hmem => by
        have := (dictContains_iff st.1 c.comment_id).mpr hmem
        simp_all)
      rfl

theorem insertNewPosts_inv (d : List ((ℤ × ℕ) × Post)) (b : List Post)
    (h : DictInv pKey d) : DictInv pKey (insertNewPosts d b).1 := by
  refine foldl_pair_inv (DictInv pKey) _ ?_ b (d, 0) h
  intro st p hst
  dsimp only
  split
  · exact hst
  · exact append_new_inv hst
      (fun hmem => by
        have := (dictContains_iff st.1 (p.owner_id, p.post_id)).mpr hmem
        simp_all)
      rfl

theorem crawl_thread_into_inv {Page : Type} (env : CommentEnv Page) (owner : ℤ)
    (tid off : ℕ) : ∀ (fuel : ℕ) (d : List (ℕ × Comment)),
    DictInv cKey d → DictInv cKey (crawl_thread_into env owner tid off fuel d) := by
  intro fuel
  induction fuel with
  | zero => exact fun d h => h
  | succ n ih =>
    intro d h
    simp only [crawl_thread_into]
    split
    · exact h
    · split
      · exact insertNewComments_inv owner d _ h
      · exact ih _ (insertNewComments_inv owner d _ h)

theorem crawlThreads_inv {Page : Type} (env : CommentEnv Page) (owner : ℤ)
    (tfuel : ℕ) (threads : List (ℕ × ℕ)) :
    ∀ (d : List (ℕ × Comment)), DictInv cKey d →
      DictInv cKey (crawlThreads env owner tfuel d threads) := by
  induction threads with
  | nil => exact fun d h => h
  | cons tp tps ih =>
    intro d h
    exact ih _ (crawl_thread_into_inv env owner tp.1 tp.2 tfuel d h)

theorem commentsLoop_inv {Page : Type} (env : CommentEnv Page) (owner : ℤ)
    (max_comments : Option ℕ) (tfuel : ℕ) :
    ∀ (fuel offset : ℕ) (m : List (ℕ × Comment)), DictInv cKey m →
      DictInv cKey (commentsLoop env owner max_comments tfuel fuel offset m) := by
  intro fuel
  induction fuel with
  | zero => exact fun _ m h => h
  | succ n ih =>
    intro offset m h
    simp only [commentsLoop]
    split
    · exact h
    · split
      · exact h
      · have h1 := insertNewComments_inv owner m (env.parse (env.more offset)) h
        have h2 := crawlThreads_inv env owner tfuel
          (env.threadsOf (env.more offset)) _ h1
        split
        · exact h2
        · exact ih _ _ h2

theorem seedComments_inv (owner : ℤ) (b : List Comment) :
    DictInv cKey (seedComments owner b) := by
  have hgen : ∀ (l : List Comment) (d : List (ℕ × Comment)), DictInv cKey d →
      DictInv cKey
        (l.foldl (fun d c => dictSet d c.comment_id { c with owner_id := owner }) d) := by
    intro l
    induction l with
    | nil => exact fun d h => h
    | cons c cs ih => exact fun d h => ih _ (dictSet_inv h rfl)
  exact hgen b [] (DictInv.nil cKey)

theorem crawl_comments_map_inv {Page : Type} (env : CommentEnv Page) (owner : ℤ)
    (max_comments : Option ℕ) (offset0 tfuel fuel : ℕ) :
    DictInv cKey (crawl_comments_map env owner max_comments offset0 tfuel fuel) := by
  unfold crawl_comments_map
  exact commentsLoop_inv env owner max_comments tfuel fuel offset0 _
    (crawlThreads_inv env owner tfuel _ _ (seedComments_inv owner _))

theorem crawl_posts_map_inv {Page : Type} (env : PostEnv Page) (max_posts : Option ℕ)
    (fuel : ℕ) : DictInv pKey (crawl_posts_map env max_posts fuel) := by
  unfold crawl_posts_map
  have hseed : ∀ (l : List Post) (d : List ((ℤ × ℕ) × Post)), DictInv pKey d →
      DictInv pKey (l.foldl (fun d p => dictSet d (p.owner_id, p.post_id) p) d) := by
    intro l
    induction l with
    | nil => exact fun d h => h
    | cons p ps ih => exact fun d h => ih _ (dictSet_inv h rfl)
  have hloop : ∀ (fuel offset page_size : ℕ) (m : List ((ℤ × ℕ) × Post)),
      DictInv pKey m → DictInv pKey (postsLoop env max_posts fuel offset page_size m) := by
    intro f
    induction f with
    | zero => exact fun _ _ m h => h
    | succ n ih =>
      intro offset page_size m h
      simp only [postsLoop]
      split
      · exact h
      · split
        · exact h
        · have h1 := insertNewPosts_inv m (env.parse (env.more offset)) h
          split
          · exact h1
          · exact ih _ _ _ h1
  exact hloop fuel _ _ _ (hseed _ [] (DictInv.nil pKey))

theorem dictValues_map_key {K V : Type} (keyOf : V → K) (d : List (K × V))
    (h : ∀ kv ∈ d, keyOf kv.2 = kv.1) :
    (dictValues d).map keyOf = d.map Prod.fst := by
  unfold dictValues
  rw [List.map_map]
  exact List.map_congr_left h

/-- C1: for every page environment of one crawl run, the returned list
contains no two entities with the same natural key, and neither does the
underlying dedup map (so a comment seen both in a flat feed page and in
a thread continuation page is stored exactly once, keyed by its comment
id; a post is keyed by (owner_id, post_id)). -/
theorem crawl_dedup_no_duplicate_keys :
    (∀ (Page : Type) (env : CommentEnv Page) (owner : ℤ) (max_comments : Option ℕ)
        (offset0 tfuel fuel : ℕ),
      ((crawl_comments_for_post env owner max_comments offset0 tfuel fuel).map cKey).Nodup ∧
        ((crawl_comments_map env owner max_comments offset0 tfuel fuel).map
          Prod.fst).Nodup) ∧
    (∀ (Page : Type) (env : PostEnv Page) (max_posts : Option ℕ) (fuel : ℕ),
      ((crawl_posts env max_posts fuel).map pKey).Nodup ∧
        ((crawl_posts_map env max_posts fuel).map Prod.fst).Nodup) := by
  constructor
  · intro Page env owner max_comments offset0 tfuel fuel
    have hinv := crawl_comments_map_inv env owner max_comments offset0 tfuel fuel
    refine ⟨?_, hinv.1⟩
    have hvals : ((dictValues
        (crawl_comments_map env owner max_comments offset0 tfuel fuel)).map cKey).Nodup := by
      rw [dictValues_map_key cKey _ hinv.2]
      exact hinv.1
    have hms : (((dictValues
        (crawl_comments_map env owner max_comments offset0 tfuel fuel)).mergeSort
          commentLe).map cKey).Nodup :=
      (((List.mergeSort_perm _ commentLe).map cKey).symm).nodup hvals
    show ((if (crawl_comments_map env owner max_comments offset0 tfuel fuel).isEmpty
        then ((dictValues (crawl_comments_map env owner max_comments offset0 tfuel
          fuel)).mergeSort commentLe)
        else pySlice max_comments ((dictValues (crawl_comments_map env owner max_comments
          offset0 tfuel fuel)).mergeSort commentLe)).map cKey).Nodup
    split
    · exact hms
    · cases max_comments with
      | none => exact hms
      | some n =>
        exact (((List.take_sublist n _).map cKey)).nodup hms
  · intro Page env max_posts fuel
    have hinv := crawl_posts_map_inv env max_posts fuel
    refine ⟨?_, hinv.1⟩
    have hvals : ((dictValues (crawl_posts_map env max_posts fuel)).map pKey).Nodup := by
      rw [dictValues_map_key pKey _ hinv.2]
      exact hinv.1
    have hms : (((dictValues (crawl_posts_map env max_posts fuel)).mergeSort
        postLe).map pKey).Nodup :=
      (((List.mergeSort_perm _ postLe).map pKey).symm).nodup hvals
    show ((pyTruncPosts max_posts ((dictValues (crawl_posts_map env max_posts
        fuel)).mergeSort postLe)).map pKey).Nodup
    cases max_posts with
    | none => exact hms
    | some n =>
      by_cases hn : n = 0
      · simpa [pyTruncPosts, hn] using hms
      · simp only [pyTruncPosts, if_neg hn]
        exact (((List.take_sublist n _).map pKey)).nodup hms

theorem commentLe_trans (a b c : Comment) (h1 : commentLe a b = true)
    (h2 : commentLe b c = true) : commentLe a c = true := by
  simp only [commentLe, Bool.or_eq_true, Bool.and_eq_true, Bool.not_eq_true',
    decide_eq_true_eq] at h1 h2 ⊢
  cases hra : a.reply_to_comment_id.isSome <;>
    cases hrb : b.reply_to_comment_id.isSome <;>
    cases hrc : c.reply_to_comment_id.isSome <;> simp_all <;> omega

theorem commentLe_total (a b : Comment) :
    (commentLe a b || commentLe b a) = true := by
  simp only [commentLe, Bool.or_eq_true, Bool.and_eq_true, Bool.not_eq_true',
    decide_eq_true_eq]
  cases hra : a.reply_to_comment_id.isSome <;>
    cases hrb : b.reply_to_comment_id.isSome <;> simp_all <;> omega

theorem postLe_trans (a b c : Post) (h1 : postLe a b = true)
    (h2 : postLe b c = true) : postLe a c = true := by
  simp only [postLe, decide_eq_true_eq] at h1 h2 ⊢
  omega

theorem postLe_total (a b : Post) : (postLe a b || postLe b a) = true := by
  simp only [postLe, Bool.or_eq_true, decide_eq_true_eq]
  omega

/-- C7: the comment crawl returns its result sorted ascending by the
pair (is_reply, timestamp) and the post crawl sorted by timestamp
descending; each result is a truncation, applied after sorting, of a
sorted permutation of all collected entities. -/
theorem crawl_result_ordering :
    (∀ (Page : Type) (env : CommentEnv Page) (owner : ℤ) (max_comments : Option ℕ)
        (offset0 tfuel fuel : ℕ),
      List.Pairwise (fun c1 c2 => commentLe c1 c2 = true)
        (crawl_comments_for_post env owner max_comments offset0 tfuel fuel) ∧
      ∃ full, full.Perm (dictValues
            (crawl_comments_map env owner max_comments offset0 tfuel fuel)) ∧
        List.Pairwise (fun c1 c2 => commentLe c1 c2 = true) full ∧
        crawl_comments_for_post env owner max_comments offset0 tfuel fuel
          = (if (crawl_comments_map env owner max_comments offset0 tfuel fuel).isEmpty
              then full else pySlice max_comments full)) ∧
    (∀ (Page : Type) (env : PostEnv Page) (max_posts : Option ℕ) (fuel : ℕ),
      List.Pairwise (fun p1 p2 => postLe p1 p2 = true) (crawl_posts env max_posts fuel) ∧
      ∃ full, full.Perm (dictValues (crawl_posts_map env max_posts fuel)) ∧
        List.Pairwise (fun p1 p2 => postLe p1 p2 = true) full ∧
        crawl_posts env max_posts fuel = pyTruncPosts max_posts full) := by
  constructor
  · intro Page env owner max_comments offset0 tfuel fuel
    have hsorted := List.sorted_mergeSort commentLe_trans commentLe_total
      (dictValues (crawl_comments_map env owner max_comments offset0 tfuel fuel))
    have hperm := List.mergeSort_perm
      (dictValues (crawl_comments_map env owner max_comments offset0 tfuel fuel)) commentLe
    have heq : crawl_comments_for_post env owner max_comments offset0 tfuel fuel
        = (if (crawl_comments_map env owner max_comments offset0 tfuel fuel).isEmpty
            then ((dictValues (crawl_comments_map env owner max_comments offset0 tfuel
              fuel)).mergeSort commentLe)
            else pySlice max_comments ((dictValues (crawl_comments_map env owner
              max_comments offset0 tfuel fuel)).mergeSort commentLe)) := rfl
    refine ⟨?_, _, hperm, hsorted, heq⟩
    rw [heq]
    split
    · exact hsorted
    · cases max_comments with
      | none => exact hsorted
      | some n => exact hsorted.take
  · intro Page env max_posts fuel
    have hsorted := List.sorted_mergeSort postLe_trans postLe_total
      (dictValues (crawl_posts_map env max_posts fuel))
    have hperm := List.mergeSort_perm (dictValues (crawl_posts_map env max_posts fuel))
      postLe
    have heq : crawl_posts env max_posts fuel
        = pyTruncPosts max_posts ((dictValues (crawl_posts_map env max_posts
            fuel)).mergeSort postLe) := rfl
    refine ⟨?_, _, hperm, hsorted, heq⟩
    rw [heq]
    cases max_posts with
    | none => exact hsorted
    | some n =>
      by_cases hn : n = 0
      · simpa [pyTruncPosts, hn] using hsorted
      · simp only [pyTruncPosts, if_neg hn]
        exact hsorted.take

/-! ## Fetched-page traces for the crawl loops

These variants of the loop functions additionally return the list of
parsed batches of every page actually fetched (outer feed pages and
thread pages); their first component is proved equal to the plain loop,
so the trace is a sound account of which pages one run consumed. -/

/-- `crawl_thread_into` with the parsed batch of every fetched thread
page recorded. -/
def crawl_thread_intoT {Page : Type} (env : CommentEnv Page) (owner : ℤ)
    (thread_id offset : ℕ) :
    ℕ → List (ℕ × Comment) → List (ℕ × Comment) × List (List Comment)
  | 0, by_id => (by_id, [])
  | fuel + 1, by_id =>
    let html := env.thread thread_id offset
    if env.len html < 30 then (by_id, [])
    else
      let batch := env.parse html
      let p := insertNewComments owner by_id batch
      if p.2 = 0 then (p.1, [batch])
      else
        let r := crawl_thread_intoT env owner thread_id offset fuel p.1
        (r.1, batch :: r.2)

/-- `crawlThreads` with the thread-page batches recorded. -/
def crawlThreadsT {Page : Type} (env : CommentEnv Page) (owner : ℤ) (tfuel : ℕ)
    (d : List (ℕ × Comment)) (threads : List (ℕ × ℕ)) :
    List (ℕ × Comment) × List (List Comment) :=
  threads.foldl
    (fun acc tp =>
      let r := crawl_thread_intoT env owner tp.1 tp.2 tfuel acc.1
      (r.1, acc.2 ++ r.2))
    (d, [])

/-- `commentsLoop` with the batch of every fetched page recorded. -/
def commentsLoopT {Page : Type} (env : CommentEnv Page) (owner : ℤ)
    (max_comments : Option ℕ) (tfuel : ℕ) :
    ℕ → ℕ → List (ℕ × Comment) → List (ℕ × Comment) × List (List Comment)
  | 0, _, m => (m, [])
  | fuel + 1, offset, m =>
    if capReached max_comments m.length then (m, [])
    else
      let html := env.more offset
      if env.len html < 50 then (m, [])
      else
        let batch := env.parse html
        let page_size := if batch.length = 0 then 10 else batch.length
        let p := insertNewComments owner m batch
        let r2 := crawlThreadsT env owner tfuel p.1 (env.threadsOf html)
        if p.2 = 0 then (r2.1, batch :: r2.2)
        else
          let r := commentsLoopT env owner max_comments tfuel fuel (offset + page_size) r2.1
          (r.1, (batch :: r2.2) ++ r.2)

/-- `crawl_comments_map` with the batch of every fetched page (initial,
outer and thread pages) recorded. -/
def crawl_comments_mapT {Page : Type} (env : CommentEnv Page) (owner : ℤ)
    (max_comments : Option ℕ) (offset0 tfuel fuel : ℕ) :
    List (ℕ × Comment) × List (List Comment) :=
  let b0 := env.parse env.initial
  let m0 := seedComments owner b0
  let r1 := crawlThreadsT env owner tfuel m0 (env.threadsOf env.initial)
  let r := commentsLoopT env owner max_comments tfuel fuel offset0 r1.1
  (r.1, b0 :: (r1.2 ++ r.2))

/-- `postsLoop` with the batch of every fetched page recorded. -/
def postsLoopT {Page : Type} (env : PostEnv Page) (max_posts : Option ℕ) :
    ℕ → ℕ → ℕ → List ((ℤ × ℕ) × Post) → List ((ℤ × ℕ) × Post) × List (List Post)
  | 0, _, _, m => (m, [])
  | fuel + 1, offset, page_size, m =>
    if capReached max_posts m.length then (m, [])
    else
      let html := env.more offset
      if env.len html < 50 then (m, [])
      else
        let batch := env.parse html
        let page_size2 := if batch.length = 0 then page_size else batch.length
        let p := insertNewPosts m batch
        if p.2 = 0 then (p.1, [batch])
        else
          let r := postsLoopT env max_posts fuel (offset + page_size2) page_size2 p.1
          (r.1, batch :: r.2)

/-- `crawl_posts_map` with the batch of every fetched page recorded. -/
def crawl_posts_mapT {Page : Type} (env : PostEnv Page) (max_posts : Option ℕ)
    (fuel : ℕ) : List ((ℤ × ℕ) × Post) × List (List Post) :=
  let batch := env.parse env.initial
  let m0 := batch.foldl (fun d p => dictSet d (p.owner_id, p.post_id) p) []
  let page_size := if batch.length = 0 then 10 else batch.length
  let r := postsLoopT env max_posts fuel page_size page_size m0
  (r.1, batch :: r.2)

theorem crawl_thread_intoT_fst {Page : Type} (env : CommentEnv Page) (owner : ℤ)
    (tid off : ℕ) : ∀ (fuel : ℕ) (d : List (ℕ × Comment)),
    (crawl_thread_intoT env owner tid off fuel d).1
      = crawl_thread_into env owner tid off fuel d := by
  intro fuel
  induction fuel with
  | zero => intro d; rfl
  | succ n ih =>
    intro d
    simp only [crawl_thread_intoT, crawl_thread_into]
    split
    · rfl
    · split
      · rfl
      · exact ih _

theorem crawlThreadsT_fst {Page : Type} (env : CommentEnv Page) (owner : ℤ)
    (tfuel : ℕ) (threads : List (ℕ × ℕ)) (d : List (ℕ × Comment)) :
    (crawlThreadsT env owner tfuel d threads).1
      = crawlThreads env owner tfuel d threads := by
  unfold crawlThreadsT crawlThreads
  have hgen : ∀ (ts : List (ℕ × ℕ)) (acc : List (ℕ × Comment) × List (List Comment)),
      (ts.foldl (fun acc tp =>
          let r := crawl_thread_intoT env owner tp.1 tp.2 tfuel acc.1
          (r.1, acc.2 ++ r.2)) acc).1
        = ts.foldl (fun d tp => crawl_thread_into env owner tp.1 tp.2 tfuel d) acc.1 := by
    intro ts
    induction ts with
    | nil => intro acc; rfl
    | cons tp tps ih =>
      intro acc
      simp only [List.foldl_cons]
      rw [ih]
      rw [crawl_thread_intoT_fst]
  exact hgen threads (d, [])

theorem commentsLoopT_fst {Page : Type} (env : CommentEnv Page) (owner : ℤ)
    (max_comments : Option ℕ) (tfuel : ℕ) : ∀ (fuel offset : ℕ)
    (m : List (ℕ × Comment)),
    (commentsLoopT env owner max_comments tfuel fuel offset m).1
      = commentsLoop env owner max_comments tfuel fuel offset m := by
  intro fuel
  induction fuel with
  | zero => intro offset m; rfl
  | succ n ih =>
    intro offset m
    simp only [commentsLoopT, commentsLoop]
    split
    · rfl
    · split
      · rfl
      · rw [crawlThreadsT_fst]
        split
        · rfl
        · rw [← crawlThreadsT_fst]
          exact ih _ _

theorem crawl_comments_mapT_fst {Page : Type} (env : CommentEnv Page) (owner : ℤ)
    (max_comments : Option ℕ) (offset0 tfuel fuel : ℕ) :
    (crawl_comments_mapT env owner max_comments offset0 tfuel fuel).1
      = crawl_comments_map env owner max_comments offset0 tfuel fuel := by
  unfold crawl_comments_mapT crawl_comments_map
  rw [commentsLoopT_fst, crawlThreadsT_fst]

theorem postsLoopT_fst {Page : Type} (env : PostEnv Page) (max_posts : Option ℕ) :
    ∀ (fuel offset page_size : ℕ) (m : List ((ℤ × ℕ) × Post)),
    (postsLoopT env max_posts fuel offset page_size m).1
      = postsLoop env max_posts fuel offset page_size m := by
  intro fuel
  induction fuel with
  | zero => intro _ _ m; rfl
  | succ n ih =>
    intro offset page_size m
    simp only [postsLoopT, postsLoop]
    split
    · rfl
    · split
      · rfl
      · split
        · rfl
        · exact ih _ _ _

theorem crawl_posts_mapT_fst {Page : Type} (env : PostEnv Page) (max_posts : Option ℕ)
    (fuel : ℕ) :
    (crawl_posts_mapT env max_posts fuel).1 = crawl_posts_map env max_posts fuel := by
  unfold crawl_posts_mapT crawl_posts_map
  rw [postsLoopT_fst]

/-- A parsed batch contains an entity with key `k`. -/
def batchHasKey (k : ℕ) (b : List Comment) : Prop :=
  ∃ c ∈ b, c.comment_id = k

/-- A parsed post batch contains an entity with key `k`. -/
def pbatchHasKey (k : ℤ × ℕ) (b : List Post) : Prop :=
  ∃ p ∈ b, pKey p = k

theorem mem_keys_insertNewComments (owner : ℤ) :
    ∀ (b : List Comment) (st : List (ℕ × Comment) × ℕ) (k : ℕ),
    k ∈ ((b.foldl (fun acc c =>
        if dictContains acc.1 c.comment_id then acc
        else (acc.1 ++ [(c.comment_id, { c with owner_id := owner })], acc.2 + 1))
          st).1.map Prod.fst) ↔
      k ∈ st.1.map Prod.fst ∨ batchHasKey k b := by
  intro b
  induction b with
  | nil =>
    intro st k
    simp [batchHasKey]
  | cons c cs ih =>
    intro st k
    simp only [List.foldl_cons]
    by_cases hc : dictContains st.1 c.comment_id = true
    · rw [if_pos hc, ih st k]
      have hcm : c.comment_id ∈ st.1.map Prod.fst := (dictContains_iff _ _).mp hc
      unfold batchHasKey
      constructor
      · rintro (h | ⟨c1, hm, hk⟩)
        · exact Or.inl h
        · exact Or.inr ⟨c1, List.mem_cons_of_mem _ hm, hk⟩
      · rintro (h | ⟨c1, hm, hk⟩)
        · exact Or.inl h
        · rcases List.mem_cons.mp hm with he | he
          · exact Or.inl (by rw [← hk, he]; exact hcm)
          · exact Or.inr ⟨c1, he, hk⟩
    · rw [if_neg hc, ih _ k]
      unfold batchHasKey
      simp only [List.map_append, List.mem_append, List.map_cons, List.map_nil,
        List.mem_singleton]
      constructor
      · rintro ((h | h) | ⟨c1, hm, hk⟩)
        · exact Or.inl h
        · exact Or.inr ⟨c, List.mem_cons_self _ _, h.symm⟩
        · exact Or.inr ⟨c1, List.mem_cons_of_mem _ hm, hk⟩
      · rintro (h | ⟨c1, hm, hk⟩)
        · exact Or.inl (Or.inl h)
        · rcases List.mem_cons.mp hm with he | he
          · exact Or.inl (Or.inr (by rw [← hk, he]))
          · exact Or.inr ⟨c1, he, hk⟩

theorem mem_keys_insertNewPosts :
    ∀ (b : List Post) (st : List ((ℤ × ℕ) × Post) × ℕ) (k : ℤ × ℕ),
    k ∈ ((b.foldl (fun acc p =>
        if dictContains acc.1 (p.owner_id, p.post_id) then acc
        else (acc.1 ++ [((p.owner_id, p.post_id), p)], acc.2 + 1)) st).1.map Prod.fst) ↔
      k ∈ st.1.map Prod.fst ∨ pbatchHasKey k b := by
  intro b
  induction b with
  | nil =>
    intro st k
    simp [pbatchHasKey]
  | cons p ps ih =>
    intro st k
    simp only [List.foldl_cons]
    by_cases hc : dictContains st.1 (p.owner_id, p.post_id) = true
    · rw [if_pos hc, ih st k]
      have hcm : (p.owner_id, p.post_id) ∈ st.1.map Prod.fst :=
        (dictContains_iff _ _).mp hc
      unfold pbatchHasKey
      constructor
      · rintro (h | ⟨p1, hm, hk⟩)
        · exact Or.inl h
        · exact Or.inr ⟨p1, List.mem_cons_of_mem _ hm, hk⟩
      · rintro (h | ⟨p1, hm, hk⟩)
        · exact Or.inl h
        · rcases List.mem_cons.mp hm with he | he
          · exact Or.inl (by rw [← hk, he]; exact hcm)
          · exact Or.inr ⟨p1, he, hk⟩
    · rw [if_neg hc, ih _ k]
      unfold pbatchHasKey
      simp only [List.map_append, List.mem_append, List.map_cons, List.map_nil,
        List.mem_singleton]
      constructor
      · rintro ((h | h) | ⟨p1, hm, hk⟩)
        · exact Or.inl h
        · exact Or.inr ⟨p, List.mem_cons_self _ _, h.symm⟩
        · exact Or.inr ⟨p1, List.mem_cons_of_mem _ hm, hk⟩
      · rintro (h | ⟨p1, hm, hk⟩)
        · exact Or.inl (Or.inl h)
        · rcases List.mem_cons.mp hm with he | he
          · exact Or.inl (Or.inr (by rw [← hk, he]; rfl))
          · exact Or.inr ⟨p1, he, hk⟩

theorem mem_keys_dictSet {K V : Type} [DecidableEq K] (d : List (K × V)) (k0 : K)
    (v : V) (k : K) :
    k ∈ (dictSet d k0 v).map Prod.fst ↔ k ∈ d.map Prod.fst ∨ k = k0 := by
  rw [dictSet_map_fst]
  split
  · constructor
    · exact Or.inl
    · rintro (h | h)
      · exact h
      · rw [h]
        assumption
  · simp [List.mem_append]

theorem mem_keys_seedComments (owner : ℤ) (b : List Comment) (k : ℕ) :
    k ∈ (seedComments owner b).map Prod.fst ↔ batchHasKey k b := by
  have hgen : ∀ (l : List Comment) (d : List (ℕ × Comment)),
      k ∈ ((l.foldl (fun d c => dictSet d c.comment_id
          { c with owner_id := owner }) d).map Prod.fst) ↔
        k ∈ d.map Prod.fst ∨ batchHasKey k l := by
    intro l
    induction l with
    | nil => intro d; simp [batchHasKey]
    | cons c cs ih =>
      intro d
      simp only [List.foldl_cons]
      rw [ih, mem_keys_dictSet]
      unfold batchHasKey
      constructor
      · rintro ((h | h) | ⟨c1, hm, hk⟩)
        · exact Or.inl h
        · exact Or.inr ⟨c, List.mem_cons_self _ _, h.symm⟩
        · exact Or.inr ⟨c1, List.mem_cons_of_mem _ hm, hk⟩
      · rintro (h | ⟨c1, hm, hk⟩)
        · exact Or.inl (Or.inl h)
        · rcases List.mem_cons.mp hm with he | he
          · exact Or.inl (Or.inr (by rw [← hk, he]))
          · exact Or.inr ⟨c1, he, hk⟩
  rw [show seedComments owner b = b.foldl (fun d c => dictSet d c.comment_id
    { c with owner_id := owner }) [] from rfl, hgen b []]
  simp

theorem mem_keys_seedPosts (b : List Post) (k : ℤ × ℕ) :
    k ∈ ((b.foldl (fun d p => dictSet d (p.owner_id, p.post_id) p) []).map Prod.fst) ↔
      pbatchHasKey k b := by
  have hgen : ∀ (l : List Post) (d : List ((ℤ × ℕ) × Post)),
      k ∈ ((l.foldl (fun d p => dictSet d (p.owner_id, p.post_id) p) d).map Prod.fst) ↔
        k ∈ d.map Prod.fst ∨ pbatchHasKey k l := by
    intro l
    induction l with
    | nil => intro d; simp [pbatchHasKey]
    | cons p ps ih =>
      intro d
      simp only [List.foldl_cons]
      rw [ih, mem_keys_dictSet]
      unfold pbatchHasKey
      constructor
      · rintro ((h | h) | ⟨p1, hm, hk⟩)
        · exact Or.inl h
        · exact Or.inr ⟨p, List.mem_cons_self _ _, h.symm⟩
        · exact Or.inr ⟨p1, List.mem_cons_of_mem _ hm, hk⟩
      · rintro (h | ⟨p1, hm, hk⟩)
        · exact Or.inl (Or.inl h)
        · rcases List.mem_cons.mp hm with he | he
          · exact Or.inl (Or.inr (by rw [← hk, he]; rfl))
          · exact Or.inr ⟨p1, he, hk⟩
  rw [hgen b []]
  simp

theorem mem_keys_insertNew (owner : ℤ) (d : List (ℕ × Comment)) (b : List Comment)
    (k : ℕ) :
    k ∈ ((insertNewComments owner d b).1.map Prod.fst) ↔
      k ∈ d.map Prod.fst ∨ batchHasKey k b :=
  mem_keys_insertNewComments owner b (d, 0) k

theorem mem_keys_insertNewP (d : List ((ℤ × ℕ) × Post)) (b : List Post) (k : ℤ × ℕ) :
    k ∈ ((insertNewPosts d b).1.map Prod.fst) ↔
      k ∈ d.map Prod.fst ∨ pbatchHasKey k b :=
  mem_keys_insertNewPosts b (d, 0) k

theorem exists_mem_cons_iff2 {A : Type} (P : A → Prop) (a : A) (l : List A) :
    (∃ b ∈ a :: l, P b) ↔ P a ∨ ∃ b ∈ l, P b := by
  constructor
  · rintro ⟨b, hb, hP⟩
    rcases List.mem_cons.mp hb with he | he
    · exact Or.inl (he ▸ hP)
    · exact Or.inr ⟨b, he, hP⟩
  · rintro (h | ⟨b, hb, hP⟩)
    · exact ⟨a, List.mem_cons_self _ _, h⟩
    · exact ⟨b, List.mem_cons_of_mem _ hb, hP⟩

theorem exists_mem_append_iff2 {A : Type} (P : A → Prop) (l1 l2 : List A) :
    (∃ b ∈ l1 ++ l2, P b) ↔ (∃ b ∈ l1, P b) ∨ ∃ b ∈ l2, P b := by
  constructor
  · rintro ⟨b, hb, hP⟩
    rcases List.mem_append.mp hb with he | he
    · exact Or.inl ⟨b, he, hP⟩
    · exact Or.inr ⟨b, he, hP⟩
  · rintro (⟨b, hb, hP⟩ | ⟨b, hb, hP⟩)
    · exact ⟨b, List.mem_append_left _ hb, hP⟩
    · exact ⟨b, List.mem_append_right _ hb, hP⟩

theorem mem_keys_crawl_thread_intoT {Page : Type} (env : CommentEnv Page) (owner : ℤ)
    (tid off : ℕ) : ∀ (fuel : ℕ) (d : List (ℕ × Comment)) (k : ℕ),
    k ∈ (crawl_thread_intoT env owner tid off fuel d).1.map Prod.fst ↔
      k ∈ d.map Prod.fst ∨
        ∃ b ∈ (crawl_thread_intoT env owner tid off fuel d).2, batchHasKey k b := by
  intro fuel
  induction fuel with
  | zero =>
    intro d k
    simp [crawl_thread_intoT]
  | succ n ih =>
    intro d k
    simp only [crawl_thread_intoT]
    split
    · simp
    · split
      · rw [mem_keys_insertNew, exists_mem_cons_iff2]
        simp
      · rw [ih, mem_keys_insertNew, exists_mem_cons_iff2]
        tauto

theorem threadsFold_split {Page : Type} (env : CommentEnv Page) (owner : ℤ)
    (tfuel : ℕ) : ∀ (tps : List (ℕ × ℕ)) (d : List (ℕ × Comment))
    (t0 : List (List Comment)),
    (tps.foldl (fun acc tp =>
        let r := crawl_thread_intoT env owner tp.1 tp.2 tfuel acc.1
        (r.1, acc.2 ++ r.2)) (d, t0)).1
      = (crawlThreadsT env owner tfuel d tps).1 ∧
    (tps.foldl (fun acc tp =>
        let r := crawl_thread_intoT env owner tp.1 tp.2 tfuel acc.1
        (r.1, acc.2 ++ r.2)) (d, t0)).2
      = t0 ++ (crawlThreadsT env owner tfuel d tps).2 := by
  intro tps
  induction tps with
  | nil =>
    intro d t0
    exact ⟨rfl, by simp [crawlThreadsT]⟩
  | cons tp tps ih =>
    intro d t0
    have hcons : ∀ (t1 : List (List Comment)),
        ((tp :: tps).foldl (fun acc tp =>
            let r := crawl_thread_intoT env owner tp.1 tp.2 tfuel acc.1
            (r.1, acc.2 ++ r.2)) (d, t1))
          = (tps.foldl (fun acc tp =>
              let r := crawl_thread_intoT env owner tp.1 tp.2 tfuel acc.1
              (r.1, acc.2 ++ r.2))
              ((crawl_thread_intoT env owner tp.1 tp.2 tfuel d).1,
                t1 ++ (crawl_thread_intoT env owner tp.1 tp.2 tfuel d).2)) := by
      intro t1
      simp [List.foldl_cons]
    have hT : crawlThreadsT env owner tfuel d (tp :: tps)
        = (tps.foldl (fun acc tp =>
            let r := crawl_thread_intoT env owner tp.1 tp.2 tfuel acc.1
            (r.1, acc.2 ++ r.2))
            ((crawl_thread_intoT env owner tp.1 tp.2 tfuel d).1,
              (crawl_thread_intoT env owner tp.1 tp.2 tfuel d).2)) := by
      show (( tp :: tps).foldl (fun acc tp =>
            let r := crawl_thread_intoT env owner tp.1 tp.2 tfuel acc.1
            (r.1, acc.2 ++ r.2)) (d, [])) = _
      rw [hcons []]
      simp
    obtain ⟨ihl1, ihl2⟩ := ih (crawl_thread_intoT env owner tp.1 tp.2 tfuel d).1
      (t0 ++ (crawl_thread_intoT env owner tp.1 tp.2 tfuel d).2)
    obtain ⟨ihr1, ihr2⟩ := ih (crawl_thread_intoT env owner tp.1 tp.2 tfuel d).1
      (crawl_thread_intoT env owner tp.1 tp.2 tfuel d).2
    constructor
    · rw [hcons t0, hT, ihl1, ihr1]
    · rw [hcons t0, hT, ihl2, ihr2]
      simp

theorem mem_keys_crawlThreadsT {Page : Type} (env : CommentEnv Page) (owner : ℤ)
    (tfuel : ℕ) : ∀ (tps : List (ℕ × ℕ)) (d : List (ℕ × Comment)) (k : ℕ),
    k ∈ (crawlThreadsT env owner tfuel d tps).1.map Prod.fst ↔
      k ∈ d.map Prod.fst ∨
        ∃ b ∈ (crawlThreadsT env owner tfuel d tps).2, batchHasKey k b := by
  intro tps
  induction tps with
  | nil =>
    intro d k
    simp [crawlThreadsT]
  | cons tp tps ih =>
    intro d k
    have hT : crawlThreadsT env owner tfuel d (tp :: tps)
        = (tps.foldl (fun acc tp =>
            let r := crawl_thread_intoT env owner tp.1 tp.2 tfuel acc.1
            (r.1, acc.2 ++ r.2))
            ((crawl_thread_intoT env owner tp.1 tp.2 tfuel d).1,
              (crawl_thread_intoT env owner tp.1 tp.2 tfuel d).2)) := by
      show (( tp :: tps).foldl (fun acc tp =>
            let r := crawl_thread_intoT env owner tp.1 tp.2 tfuel acc.1
            (r.1, acc.2 ++ r.2)) (d, [])) = _
      simp [List.foldl_cons]
    obtain ⟨h1, h2⟩ := threadsFold_split env owner tfuel tps
      (crawl_thread_intoT env owner tp.1 tp.2 tfuel d).1
      (crawl_thread_intoT env owner tp.1 tp.2 tfuel d).2
    rw [hT, h1, h2]
    rw [ih, mem_keys_crawl_thread_intoT, exists_mem_append_iff2]
    exact or_assoc

theorem mem_keys_commentsLoopT {Page : Type} (env : CommentEnv Page) (owner : ℤ)
    (max_comments : Option ℕ) (tfuel : ℕ) : ∀ (fuel offset : ℕ)
    (m : List (ℕ × Comment)) (k : ℕ),
    k ∈ (commentsLoopT env owner max_comments tfuel fuel offset m).1.map Prod.fst ↔
      k ∈ m.map Prod.fst ∨
        ∃ b ∈ (commentsLoopT env owner max_comments tfuel fuel offset m).2,
          batchHasKey k b := by
  intro fuel
  induction fuel with
  | zero =>
    intro offset m k
    simp [commentsLoopT]
  | succ n ih =>
    intro offset m k
    simp only [commentsLoopT]
    split
    · simp
    · split
      · simp
      · split
        · rw [mem_keys_crawlThreadsT, mem_keys_insertNew, exists_mem_cons_iff2]
          exact or_assoc
        · rw [ih, mem_keys_crawlThreadsT, mem_keys_insertNew,
            exists_mem_append_iff2, exists_mem_cons_iff2]
          constructor
          · rintro (((h | h) | h) | h)
            · exact Or.inl h
            · exact Or.inr (Or.inl (Or.inl h))
            · exact Or.inr (Or.inl (Or.inr h))
            · exact Or.inr (Or.inr h)
          · rintro (h | ((h | h) | h))
            · exact Or.inl (Or.inl (Or.inl h))
            · exact Or.inl (Or.inl (Or.inr h))
            · exact Or.inl (Or.inr h)
            · exact Or.inr h

theorem mem_keys_crawl_comments_map {Page : Type} (env : CommentEnv Page) (owner : ℤ)
    (max_comments : Option ℕ) (offset0 tfuel fuel : ℕ) (k : ℕ) :
    k ∈ (crawl_comments_map env owner max_comments offset0 tfuel fuel).map Prod.fst ↔
      ∃ b ∈ (crawl_comments_mapT env owner max_comments offset0 tfuel fuel).2,
        batchHasKey k b := by
  unfold crawl_comments_map
  show k ∈ (commentsLoop env owner max_comments tfuel fuel offset0
      (crawlThreads env owner tfuel (seedComments owner (env.parse env.initial))
        (env.threadsOf env.initial))).map Prod.fst ↔ _
  rw [← crawlThreadsT_fst, ← commentsLoopT_fst]
  rw [mem_keys_commentsLoopT, mem_keys_crawlThreadsT, mem_keys_seedComments]
  have htr : (crawl_comments_mapT env owner max_comments offset0 tfuel fuel).2
      = (env.parse env.initial)
        :: ((crawlThreadsT env owner tfuel (seedComments owner (env.parse env.initial))
              (env.threadsOf env.initial)).2
          ++ (commentsLoopT env owner max_comments tfuel fuel offset0
              (crawlThreadsT env owner tfuel (seedComments owner (env.parse env.initial))
                (env.threadsOf env.initial)).1).2) := rfl
  rw [htr, exists_mem_cons_iff2, exists_mem_append_iff2]
  exact or_assoc

theorem mem_keys_postsLoopT {Page : Type} (env : PostEnv Page) (max_posts : Option ℕ) :
    ∀ (fuel offset page_size : ℕ) (m : List ((ℤ × ℕ) × Post)) (k : ℤ × ℕ),
    k ∈ (postsLoopT env max_posts fuel offset page_size m).1.map Prod.fst ↔
      k ∈ m.map Prod.fst ∨
        ∃ b ∈ (postsLoopT env max_posts fuel offset page_size m).2,
          pbatchHasKey k b := by
  intro fuel
  induction fuel with
  | zero =>
    intro offset page_size m k
    simp [postsLoopT]
  | succ n ih =>
    intro offset page_size m k
    simp only [postsLoopT]
    split
    · simp
    · split
      · simp
      · split
        · rw [mem_keys_insertNewP, exists_mem_cons_iff2]
          simp
        · rw [ih, mem_keys_insertNewP, exists_mem_cons_iff2]
          exact or_assoc

theorem mem_keys_crawl_posts_map {Page : Type} (env : PostEnv Page)
    (max_posts : Option ℕ) (fuel : ℕ) (k : ℤ × ℕ) :
    k ∈ (crawl_posts_map env max_posts fuel).map Prod.fst ↔
      ∃ b ∈ (crawl_posts_mapT env max_posts fuel).2, pbatchHasKey k b := by
  unfold crawl_posts_map
  show k ∈ (postsLoop env max_posts fuel
      (if (env.parse env.initial).length = 0 then 10 else (env.parse env.initial).length)
      (if (env.parse env.initial).length = 0 then 10 else (env.parse env.initial).length)
      ((env.parse env.initial).foldl
        (fun d p => dictSet d (p.owner_id, p.post_id) p) [])).map Prod.fst ↔ _
  rw [← postsLoopT_fst]
  rw [mem_keys_postsLoopT, mem_keys_seedPosts]
  have htr : (crawl_posts_mapT env max_posts fuel).2
      = (env.parse env.initial)
        :: (postsLoopT env max_posts fuel
            (if (env.parse env.initial).length = 0 then 10
              else (env.parse env.initial).length)
            (if (env.parse env.initial).length = 0 then 10
              else (env.parse env.initial).length)
            ((env.parse env.initial).foldl
              (fun d p => dictSet d (p.owner_id, p.post_id) p) [])).2 := rfl
  rw [htr, exists_mem_cons_iff2]

theorem commentsLoop_stop {Page : Type} (env : CommentEnv Page) (owner : ℤ)
    (max_comments : Option ℕ) (tfuel fuel offset : ℕ) (m : List (ℕ × Comment))
    (hcap : capReached max_comments m.length = false)
    (hlen : ¬ env.len (env.more offset) < 50)
    (hnew : (insertNewComments owner m (env.parse (env.more offset))).2 = 0) :
    commentsLoop env owner max_comments tfuel (fuel + 1) offset m
      = crawlThreads env owner tfuel
          (insertNewComments owner m (env.parse (env.more offset))).1
          (env.threadsOf (env.more offset)) := by
  simp only [commentsLoop]
  rw [if_neg (by simp [hcap]), if_neg hlen, if_pos hnew]

theorem postsLoop_stop {Page : Type} (env : PostEnv Page) (max_posts : Option ℕ)
    (fuel offset page_size : ℕ) (m : List ((ℤ × ℕ) × Post))
    (hcap : capReached max_posts m.length = false)
    (hlen : ¬ env.len (env.more offset) < 50)
    (hnew : (insertNewPosts m (env.parse (env.more offset))).2 = 0) :
    postsLoop env max_posts (fuel + 1) offset page_size m
      = (insertNewPosts m (env.parse (env.more offset))).1 := by
  simp only [postsLoop]
  rw [if_neg (by simp [hcap]), if_neg hlen, if_pos hnew]

/-- Concrete comment environment refuting the thread clause of the stop
condition: the initial page holds comment 1 and no threads; the first
loop page (offset 10) repeats comment 1 (zero new) but discovers thread
5, whose page holds the new comment 2; the page at the advanced offset
11 holds the fresh comment 3. -/
def envC2 : CommentEnv ℕ :=
  { initial := 0
    more := fun o => if o = 10 then 1 else if o = 11 then 3 else 4
    thread := fun _ _ => 2
    parse := fun p =>
      if p = 0 then
        [{ comment_id := 1, reply_to_comment_id := none, timestamp := 5, owner_id := 9 }]
      else if p = 1 then
        [{ comment_id := 1, reply_to_comment_id := none, timestamp := 5, owner_id := 9 }]
      else if p = 2 then
        [{ comment_id := 2, reply_to_comment_id := some 1, timestamp := 6, owner_id := 9 }]
      else if p = 3 then
        [{ comment_id := 3, reply_to_comment_id := none, timestamp := 7, owner_id := 9 }]
      else []
    threadsOf := fun p => if p = 1 then [(5, 1)] else []
    len := fun _ => 100 }

/-- The comment map of the envC2 run just before the pagination loop. -/
def mC2pre : List (ℕ × Comment) :=
  crawlThreads envC2 0 5 (seedComments 0 (envC2.parse envC2.initial))
    (envC2.threadsOf envC2.initial)

/-- Counterexample to C2: in the envC2 run the first loop page
contributes zero new comments yet discovers the new thread 5 (whose page
contributes comment 2), and the loop still stops: the collected keys are
exactly 1 and 2, and the fresh comment 3 waiting at the advanced offset
11 is never collected. -/
theorem comments_loop_stops_despite_new_threads :
    (insertNewComments 0 mC2pre (envC2.parse (envC2.more 10))).2 = 0 ∧
      envC2.threadsOf (envC2.more 10) = [(5, 1)] ∧
      batchHasKey 2 (envC2.parse (envC2.thread 5 1)) ∧
      ¬ 2 ∈ mC2pre.map Prod.fst ∧
      batchHasKey 3 (envC2.parse (envC2.more 11)) ∧
      (crawl_comments_map envC2 0 none 10 5 5).map Prod.fst = [1, 2] := by
  refine ⟨by decide, by decide, ?_, by decide, ?_, by decide⟩
  · show ∃ c ∈ envC2.parse (envC2.thread 5 1), c.comment_id = 2
    decide
  · show ∃ c ∈ envC2.parse (envC2.more 11), c.comment_id = 3
    decide

/-- C2 (amended): the outer pagination loop stops after any page that
contributed zero new entities, whether or not that page discovered new
threads — discovered threads are still crawled into the map before the
stop; and the collected key set always equals the union of the keys of
the entities of all pages fetched by the run (initial page, outer pages
and thread pages, as recorded by the trace variants). -/
theorem crawl_loop_stop_and_union :
    (∀ (Page : Type) (env : CommentEnv Page) (owner : ℤ) (max_comments : Option ℕ)
        (tfuel fuel offset : ℕ) (m : List (ℕ × Comment)),
      capReached max_comments m.length = false →
      ¬ env.len (env.more offset) < 50 →
      (insertNewComments owner m (env.parse (env.more offset))).2 = 0 →
      commentsLoop env owner max_comments tfuel (fuel + 1) offset m
        = crawlThreads env owner tfuel
            (insertNewComments owner m (env.parse (env.more offset))).1
            (env.threadsOf (env.more offset))) ∧
    (∀ (Page : Type) (env : PostEnv Page) (max_posts : Option ℕ)
        (fuel offset page_size : ℕ) (m : List ((ℤ × ℕ) × Post)),
      capReached max_posts m.length = false →
      ¬ env.len (env.more offset) < 50 →
      (insertNewPosts m (env.parse (env.more offset))).2 = 0 →
      postsLoop env max_posts (fuel + 1) offset page_size m
        = (insertNewPosts m (env.parse (env.more offset))).1) ∧
    (∀ (Page : Type) (env : CommentEnv Page) (owner : ℤ) (max_comments : Option ℕ)
        (offset0 tfuel fuel : ℕ) (k : ℕ),
      k ∈ (crawl_comments_map env owner max_comments offset0 tfuel fuel).map Prod.fst ↔
        ∃ b ∈ (crawl_comments_mapT env owner max_comments offset0 tfuel fuel).2,
          batchHasKey k b) ∧
    (∀ (Page : Type) (env : PostEnv Page) (max_posts : Option ℕ) (fuel : ℕ)
        (k : ℤ × ℕ),
      k ∈ (crawl_posts_map env max_posts fuel).map Prod.fst ↔
        ∃ b ∈ (crawl_posts_mapT env max_posts fuel).2, pbatchHasKey k b) :=
  ⟨fun _ env owner mc tf f o m h1 h2 h3 =>
      commentsLoop_stop env owner mc tf f o m h1 h2 h3,
   fun _ env mp f o ps m h1 h2 h3 => postsLoop_stop env mp f o ps m h1 h2 h3,
   fun _ env owner mc o0 tf f k => mem_keys_crawl_comments_map env owner mc o0 tf f k,
   fun _ env mp f k => mem_keys_crawl_posts_map env mp f k⟩

/-- Concrete post environment for the C2 witness: the second page
repeats the single post of the first page. -/
def envP : PostEnv ℕ :=
  { initial := 0
    more := fun _ => 1
    parse := fun _ => [{ owner_id := -1, post_id := 4, timestamp := 5 }]
    len := fun _ => 100 }

/-- Witness for C2 (amended) at the concrete environments envC2 and
envP, discharging every stop-condition hypothesis by evaluation. -/
theorem crawl_loop_stop_and_union_witness :
    commentsLoop envC2 0 none 5 (4 + 1) 10 mC2pre
      = crawlThreads envC2 0 5
          (insertNewComments 0 mC2pre (envC2.parse (envC2.more 10))).1
          (envC2.threadsOf (envC2.more 10)) ∧
    postsLoop envP none (3 + 1) 1 1
        ((envP.parse envP.initial).foldl
          (fun d p => dictSet d (p.owner_id, p.post_id) p) [])
      = (insertNewPosts
          ((envP.parse envP.initial).foldl
            (fun d p => dictSet d (p.owner_id, p.post_id) p) [])
          (envP.parse (envP.more 1))).1 ∧
    ((2 : ℕ) ∈ (crawl_comments_map envC2 0 none 10 5 5).map Prod.fst ↔
      ∃ b ∈ (crawl_comments_mapT envC2 0 none 10 5 5).2, batchHasKey 2 b) :=
  ⟨(crawl_loop_stop_and_union).1 ℕ envC2 0 none 5 4 10 mC2pre rfl
      (by decide) (by decide),
   (crawl_loop_stop_and_union).2.1 ℕ envP none 3 1 1
      ((envP.parse envP.initial).foldl
        (fun d p => dictSet d (p.owner_id, p.post_id) p) []) rfl
      (by decide) (by decide),
   (crawl_loop_stop_and_union).2.2.1 ℕ envC2 0 none 10 5 5 2⟩

/-! ## normalize_date (helpers.py lines 87-180)

The function strips and lowercases the text, then tries an ordered list
of anchored regex patterns, first match wins: absolute date with year;
relative date with time; bare relative date; yesterday/today with time;
N units ago.  The regexes are deterministic on their inputs (greedy runs
followed by characters outside the run class), so they are embedded as
deterministic character-list parsers.  `datetime`/pytz semantics are
modelled over the proleptic Gregorian calendar with the fixed
Europe/Moscow offset of +3 hours (exact for all post-2014 instants, the
inputs this crawler sees); an invalid component raises in Python, so the
construction returns `Except`. -/

/-- ASCII lowercasing, Python `str.lower()` on the inputs concerned. -/
def pyToLower (c : Char) : Char :=
  if 'A' ≤ c ∧ c ≤ 'Z' then Char.ofNat (c.toNat + 32) else c

/-- The processed text: stripped then lowercased (line 97). -/
def processedText (s : String) : List Char :=
  (pyStripList s.data).map pyToLower

/-- Days between a proleptic-Gregorian civil date and 1970-01-01. -/
def daysFromCivil (y : ℤ) (m d : ℕ) : ℤ :=
  let y1 : ℤ := if m ≤ 2 then y - 1 else y
  let era : ℤ := (if 0 ≤ y1 then y1 else y1 - 399) / 400
  let yoe : ℤ := y1 - era * 400
  let mp : ℤ := (m : ℤ) + (if 2 < m then -3 else 9)
  let doy : ℤ := (153 * mp + 2) / 5 + (d : ℤ) - 1
  let doe : ℤ := yoe * 365 + yoe / 4 - yoe / 100 + doy
  era * 146097 + doe - 719468

/-- Gregorian leap year. -/
def isLeap (y : ℤ) : Bool :=
  (y % 4 = 0 && y % 100 ≠ 0) || y % 400 = 0

/-- Days in a month. -/
def daysInMonth (y : ℤ) (m : ℕ) : ℕ :=
  if m = 2 then (if isLeap y then 29 else 28)
  else if m = 4 ∨ m = 6 ∨ m = 9 ∨ m = 11 then 30 else 31

/-- Epoch seconds of a Moscow-local civil time (fixed offset +3h). -/
def mskEpoch (y : ℤ) (mo d h mi s : ℕ) : ℤ :=
  daysFromCivil y mo d * 86400 + (h : ℤ) * 3600 + (mi : ℤ) * 60 + (s : ℤ) - 10800

/-- The argument ranges accepted by `datetime(y, mo, d, h, mi)` and a
subsequent `localize`; outside them Python raises ValueError. -/
def validArgs (y : ℤ) (mo d h mi : ℕ) : Prop :=
  1 ≤ y ∧ y ≤ 9999 ∧ 1 ≤ mo ∧ mo ≤ 12 ∧ 1 ≤ d ∧ d ≤ daysInMonth y mo ∧
    h ≤ 23 ∧ mi ≤ 59

instance (y : ℤ) (mo d h mi : ℕ) : Decidable (validArgs y mo d h mi) := by
  unfold validArgs
  infer_instance

/-- Model of `dtz.localize(datetime(...)).timestamp()`: the epoch value,
or a raised ValueError on out-of-range components. -/
def mkDatetime (y : ℤ) (mo d h mi : ℕ) : Except Unit ℤ :=
  if validArgs y mo d h mi then Except.ok (mskEpoch y mo d h mi 0)
  else Except.error ()

/-- The reference instant `now` as a Moscow-local civil datetime (the
source converts `now` with `astimezone` before reading its fields). -/
structure NowDT where
  year : ℤ
  month : ℕ
  day : ℕ
  hour : ℕ
  minute : ℕ
  second : ℕ

/-- Epoch seconds of the reference instant. -/
def NowDT.epoch (n : NowDT) : ℤ :=
  mskEpoch n.year n.month n.day n.hour n.minute n.second

/-- Consume a literal word at the head of the input. -/
def consumeLit : List Char → List Char → Option (List Char)
  | [], l => some l
  | _ :: _, [] => none
  | c :: cs, x :: xs => if x = c then consumeLit cs xs else none

/-- Shared front end of the three date patterns:
`(\d{1,2})\s+([a-z]{3,5})[a-z]*`, returning the day value, the
five-character month capture and the rest after the letter run. -/
def parseDayMon (l : List Char) : Option (ℕ × List Char × List Char) :=
  let ds := l.takeWhile isDig
  let r1 := l.dropWhile isDig
  if ds.length = 0 ∨ 2 < ds.length then none
  else
    let ws := r1.takeWhile pySpace
    let r2 := r1.dropWhile pySpace
    if ws.isEmpty then none
    else
      let ls := r2.takeWhile isLet
      let r3 := r2.dropWhile isLet
      if ls.length < 3 then none
      else some (digitsToNat ds, ls.take 5, r3)

/-- The `MONTHS_EN` table lookup. -/
def monthsLookup (w : String) : Option ℕ :=
  match w with
  | "jan" => some 1
  | "feb" => some 2
  | "mar" => some 3
  | "apr" => some 4
  | "may" => some 5
  | "jun" => some 6
  | "jul" => some 7
  | "aug" => some 8
  | "sep" => some 9
  | "oct" => some 10
  | "nov" => some 11
  | "dec" => some 12
  | _ => none

/-- `MONTHS_EN.get(mon[:5], MONTHS_EN.get(mon[:3], 1))` (lines 111, 126,
135): an unknown month word falls back to January. -/
def monIdx (mon : List Char) : ℕ :=
  match monthsLookup (String.mk (mon.take 5)) with
  | some i => i
  | none => (monthsLookup (String.mk (mon.take 3))).getD 1

/-- The end-anchored time tail `(\d{1,2}):(\d{2})\s*(am|pm)?$`,
returning the raw hour, the minute and the am/pm flag (true = pm). -/
def parseTimeEnd (l : List Char) : Option (ℕ × ℕ × Option Bool) :=
  let hs := l.takeWhile isDig
  let r1 := l.dropWhile isDig
  if hs.length = 0 ∨ 2 < hs.length then none
  else
    match r1 with
    | ':' :: m1 :: m2 :: r3 =>
      if isDig m1 && isDig m2 then
        match r3.dropWhile pySpace with
        | [] => some (digitsToNat hs, digitsToNat [m1, m2], none)
        | ['a', 'm'] => some (digitsToNat hs, digitsToNat [m1, m2], some false)
        | ['p', 'm'] => some (digitsToNat hs, digitsToNat [m1, m2], some true)
        | _ => none
      else none
    | _ => none

/-- Pattern 1 (lines 98-113): absolute date
`^(\d{1,2})\s+([a-z]{3,5})[a-z]*\s+(\d{4})(?:\s+at\s+time)?$`. -/
def parseAbsolute (l : List Char) : Option (ℕ × List Char × ℕ × ℕ × ℕ × Option Bool) :=
  match parseDayMon l with
  | none => none
  | some (d, mon, r3) =>
    let ws := r3.takeWhile pySpace
    let r4 := r3.dropWhile pySpace
    if ws.isEmpty then none
    else
      let ys := r4.takeWhile isDig
      let r5 := r4.dropWhile isDig
      if ys.length ≠ 4 then none
      else
        match r5 with
        | [] => some (d, mon, digitsToNat ys, 0, 0, none)
        | _ =>
          let ws2 := r5.takeWhile pySpace
          let r6 := r5.dropWhile pySpace
          if ws2.isEmpty then none
          else
            match r6 with
            | 'a' :: 't' :: r7 =>
              let ws3 := r7.takeWhile pySpace
              let r8 := r7.dropWhile pySpace
              if ws3.isEmpty then none
              else
                match parseTimeEnd r8 with
                | some (h, mm, ap) => some (d, mon, digitsToNat ys, h, mm, ap)
                | none => none
            | _ => none

/-- Pattern 2 (lines 115-130): relative date with time
`^(\d{1,2})\s+([a-z]{3,5})[a-z]*\s+at\s+(\d{1,2}):(\d{2})\s*(am|pm)?$`. -/
def parseRelAt (l : List Char) : Option (ℕ × List Char × ℕ × ℕ × Option Bool) :=
  match parseDayMon l with
  | none => none
  | some (d, mon, r3) =>
    let ws := r3.takeWhile pySpace
    let r4 := r3.dropWhile pySpace
    if ws.isEmpty then none
    else
      match r4 with
      | 'a' :: 't' :: r7 =>
        let ws3 := r7.takeWhile pySpace
        let r8 := r7.dropWhile pySpace
        if ws3.isEmpty then none
        else
          match parseTimeEnd r8 with
          | some (h, mm, ap) => some (d, mon, h, mm, ap)
          | none => none
      | _ => none

/-- Pattern 3 (lines 132-139): bare relative date
`^(\d{1,2})\s+([a-z]{3,5})[a-z]*$`. -/
def parseRelBare (l : List Char) : Option (ℕ × List Char) :=
  match parseDayMon l with
  | some (d, mon, []) => some (d, mon)
  | _ => none

/-- The am/pm flag of the prefix-matching time of pattern 4. -/
def parseApHead (l : List Char) : Option Bool :=
  match l with
  | 'a' :: 'm' :: _ => some false
  | 'p' :: 'm' :: _ => some true
  | _ => none

/-- Pattern 4 (lines 141-153): prefix match
`(yesterday|today)\s+at\s+(\d{1,2}):(\d{2})\s*(am|pm)?` (no end
anchor), returning (is_yesterday, raw hour, minute, am/pm). -/
def parseYdayToday (l : List Char) : Option (Bool × ℕ × ℕ × Option Bool) :=
  let word : Option (Bool × List Char) :=
    match consumeLit "yesterday".data l with
    | some r => some (true, r)
    | none =>
      match consumeLit "today".data l with
      | some r => some (false, r)
      | none => none
  match word with
  | none => none
  | some (yd, r) =>
    let ws := r.takeWhile pySpace
    let r2 := r.dropWhile pySpace
    if ws.isEmpty then none
    else
      match r2 with
      | 'a' :: 't' :: r3 =>
        let ws2 := r3.takeWhile pySpace
        let r4 := r3.dropWhile pySpace
        if ws2.isEmpty then none
        else
          let hs := r4.takeWhile isDig
          let r5 := r4.dropWhile isDig
          if hs.length = 0 ∨ 2 < hs.length then none
          else
            match r5 with
            | ':' :: m1 :: m2 :: r6 =>
              if isDig m1 && isDig m2 then
                some (yd, digitsToNat hs, digitsToNat [m1, m2],
                  parseApHead (r6.dropWhile pySpace))
              else none
            | _ => none
      | _ => none

/-- The spelled numbers of pattern 5 in the order of the alternation. -/
def spelledNumbers : List (List Char × ℕ) :=
  [("one".data, 1), ("two".data, 2), ("three".data, 3), ("four".data, 4),
   ("five".data, 5), ("six".data, 6), ("seven".data, 7), ("eight".data, 8),
   ("nine".data, 9), ("ten".data, 10)]

/-- Match one spelled number at the head of the input. -/
def wordNum (l : List Char) : Option (ℕ × List Char) :=
  spelledNumbers.foldr
    (fun wn acc =>
      match consumeLit wn.1 l with
      | some r => some (wn.2, r)
      | none => acc)
    none

/-- Pattern 5 (lines 155-178): prefix match
`(?:(\d+)|(one|...|ten))\s+(hour|hours|minute|minutes)\s+ago`,
returning the count and whether the unit is hours. -/
def parseAgo (l : List Char) : Option (ℕ × Bool) :=
  let numRest : Option (ℕ × List Char) :=
    let ds := l.takeWhile isDig
    if ds.length ≠ 0 then some (digitsToNat ds, l.dropWhile isDig)
    else wordNum l
  match numRest with
  | none => none
  | some (n, r) =>
    let ws := r.takeWhile pySpace
    let r2 := r.dropWhile pySpace
    if ws.isEmpty then none
    else
      let tryU : List Char → Bool := fun u =>
        match consumeLit u r2 with
        | some r3 =>
          if (r3.takeWhile pySpace).isEmpty then false
          else (consumeLit "ago".data (r3.dropWhile pySpace)).isSome
        | none => false
      if tryU "hour".data || tryU "hours".data then some (n, true)
      else if tryU "minute".data || tryU "minutes".data then some (n, false)
      else none

/-- The am/pm hour adjustment (e.g. lines 106-110). -/
def adjustHour (h : ℕ) (ap : Option Bool) : ℕ :=
  match ap with
  | some true => if h ≠ 12 then h + 12 else h
  | some false => if h = 12 then 0 else h
  | none => h

/-- Embedding of `normalize_date`: `none` models a missing argument,
`Except.error` a raised ValueError, and the fall-through returns the
sentinel 0. -/
def normalize_date (date_text : Option String) (now : NowDT) : Except Unit ℤ :=
  match date_text with
  | none => Except.ok 0
  | some s0 =>
    if s0 = "" then Except.ok 0
    else
      let s := processedText s0
      match parseAbsolute s with
      | some (d, mon, y, h, mm, ap) =>
        mkDatetime (y : ℤ) (monIdx mon) d (adjustHour h ap) mm
      | none =>
        match parseRelAt s with
        | some (d, mon, h, mm, ap) =>
          match mkDatetime now.year (monIdx mon) d (adjustHour h ap) mm with
          | Except.error e => Except.error e
          | Except.ok t =>
            if 86400 < t - now.epoch then
              mkDatetime (now.year - 1) (monIdx mon) d (adjustHour h ap) mm
            else Except.ok t
        | none =>
          match parseRelBare s with
          | some (d, mon) =>
            match mkDatetime now.year (monIdx mon) d 0 0 with
            | Except.error e => Except.error e
            | Except.ok t =>
              if 86400 < t - now.epoch then
                mkDatetime (now.year - 1) (monIdx mon) d 0 0
              else Except.ok t
          | none =>
            match parseYdayToday s with
            | some (yd, h, mm, ap) =>
              let hh := adjustHour h ap
              if hh ≤ 23 ∧ mm ≤ 59 then
                Except.ok ((now.epoch
                    - ((now.hour : ℤ) * 3600 + (now.minute : ℤ) * 60 + (now.second : ℤ))
                    + (hh : ℤ) * 3600 + (mm : ℤ) * 60)
                  - (if yd then 86400 else 0))
              else Except.error ()
            | none =>
              match parseAgo s with
              | some (n, isH) =>
                Except.ok (now.epoch - (if isH then (n : ℤ) * 3600 else (n : ℤ) * 60))
              | none => Except.ok 0

instance decTup5 : DecidableEq (List Char × ℕ × ℕ × ℕ × Option Bool) :=
  inferInstance

instance decTup6 : DecidableEq (ℕ × List Char × ℕ × ℕ × ℕ × Option Bool) :=
  instDecidableEqProd

/-- No recognized date pattern matches the processed text. -/
def noneOfPatterns (s : List Char) : Prop :=
  parseAbsolute s = none ∧ parseRelAt s = none ∧ parseRelBare s = none ∧
    parseYdayToday s = none ∧ parseAgo s = none

/-- C6: for every input matching none of the recognized patterns,
including missing and empty text, normalize_date returns exactly the
sentinel 0 and raises nothing. -/
theorem normalize_date_unrecognized (now : NowDT) :
    normalize_date none now = Except.ok 0 ∧
      normalize_date (some "") now = Except.ok 0 ∧
      ∀ s : String, noneOfPatterns (processedText s) →
        normalize_date (some s) now = Except.ok 0 := by
  refine ⟨rfl, rfl, ?_⟩
  rintro s ⟨h1, h2, h3, h4, h5⟩
  by_cases hs : s = ""
  · rw [hs]
    rfl
  · simp only [normalize_date, if_neg hs, h1, h2, h3, h4, h5]

/-- Witness for C6 at a concrete unparseable string. -/
theorem normalize_date_unrecognized_witness :
    normalize_date none ⟨2024, 5, 10, 12, 0, 0⟩ = Except.ok 0 ∧
      normalize_date (some "hello world") ⟨2024, 5, 10, 12, 0, 0⟩ = Except.ok 0 :=
  ⟨(normalize_date_unrecognized ⟨2024, 5, 10, 12, 0, 0⟩).1,
   (normalize_date_unrecognized ⟨2024, 5, 10, 12, 0, 0⟩).2.2 "hello world"
     (by
       unfold noneOfPatterns
       refine ⟨by decide, by decide, by decide, by decide, by decide⟩)⟩

theorem parseRelAt_inv {s : List Char} {v : ℕ × List Char × ℕ × ℕ × Option Bool}
    (hp : parseRelAt s = some v) :
    ∃ d mon r3 r7, parseDayMon s = some (d, mon, r3) ∧
      ¬ (r3.takeWhile pySpace).isEmpty = true ∧
      r3.dropWhile pySpace = 'a' :: 't' :: r7 := by
  unfold parseRelAt at hp
  split at hp
  · exact absurd hp (by simp)
  · rename_i d mon r3 heq
    dsimp only at hp
    split at hp
    · exact absurd hp (by simp)
    · rename_i hws
      split at hp
      · rename_i r7 hr4
        exact ⟨d, mon, r3, r7, heq, hws, hr4⟩
      · exact absurd hp (by simp)

theorem parseRelBare_inv {s : List Char} {v : ℕ × List Char}
    (hp : parseRelBare s = some v) :
    parseDayMon s = some (v.1, v.2, []) := by
  unfold parseRelBare at hp
  split at hp
  · rename_i d mon heq
    cases hp
    exact heq
  · exact absurd hp (by simp)

theorem parseAbsolute_none_of_relAt {s : List Char}
    {v : ℕ × List Char × ℕ × ℕ × Option Bool} (hp : parseRelAt s = some v) :
    parseAbsolute s = none := by
  obtain ⟨d, mon, r3, r7, hdm, hws, hdrop⟩ := parseRelAt_inv hp
  unfold parseAbsolute
  rw [hdm]
  simp only
  rw [if_neg hws, hdrop]
  rw [List.takeWhile_cons]
  simp [show isDig 'a' = false from by decide]

theorem parseAbsolute_none_of_relBare {s : List Char} {v : ℕ × List Char}
    (hp : parseRelBare s = some v) : parseAbsolute s = none := by
  have hdm := parseRelBare_inv hp
  unfold parseAbsolute
  rw [hdm]
  simp [List.takeWhile]

theorem parseRelAt_none_of_relBare {s : List Char} {v : ℕ × List Char}
    (hp : parseRelBare s = some v) : parseRelAt s = none := by
  have hdm := parseRelBare_inv hp
  unfold parseRelAt
  rw [hdm]
  simp [List.takeWhile]

/-- C5: a relative date without a year ('D Month', or 'D Month at H:MM
am/pm') resolves in the reference year of now; when the resulting
instant lies more than one day ahead of now it resolves in the reference
year minus one instead (both constructed dates valid: Python raises
otherwise). -/
theorem normalize_date_relative_year :
    (∀ (now : NowDT) (s : String) (d : ℕ) (mon : List Char) (h mm : ℕ)
        (ap : Option Bool),
      s ≠ "" →
      parseRelAt (processedText s) = some (d, mon, h, mm, ap) →
      validArgs now.year (monIdx mon) d (adjustHour h ap) mm →
      validArgs (now.year - 1) (monIdx mon) d (adjustHour h ap) mm →
      normalize_date (some s) now = Except.ok
        (if 86400 < mskEpoch now.year (monIdx mon) d (adjustHour h ap) mm 0 - now.epoch
         then mskEpoch (now.year - 1) (monIdx mon) d (adjustHour h ap) mm 0
         else mskEpoch now.year (monIdx mon) d (adjustHour h ap) mm 0)) ∧
    (∀ (now : NowDT) (s : String) (d : ℕ) (mon : List Char),
      s ≠ "" →
      parseRelBare (processedText s) = some (d, mon) →
      validArgs now.year (monIdx mon) d 0 0 →
      validArgs (now.year - 1) (monIdx mon) d 0 0 →
      normalize_date (some s) now = Except.ok
        (if 86400 < mskEpoch now.year (monIdx mon) d 0 0 0 - now.epoch
         then mskEpoch (now.year - 1) (monIdx mon) d 0 0 0
         else mskEpoch now.year (monIdx mon) d 0 0 0)) := by
  constructor
  · intro now s d mon h mm ap hs hp hv1 hv2
    have habs := parseAbsolute_none_of_relAt hp
    have hmk1 : mkDatetime now.year (monIdx mon) d (adjustHour h ap) mm
        = Except.ok (mskEpoch now.year (monIdx mon) d (adjustHour h ap) mm 0) := by
      unfold mkDatetime
      rw [if_pos hv1]
    have hmk2 : mkDatetime (now.year - 1) (monIdx mon) d (adjustHour h ap) mm
        = Except.ok (mskEpoch (now.year - 1) (monIdx mon) d (adjustHour h ap) mm 0) := by
      unfold mkDatetime
      rw [if_pos hv2]
    simp only [normalize_date, if_neg hs, habs, hp, hmk1]
    split
    · exact hmk2
    · rfl
  · intro now s d mon hs hp hv1 hv2
    have habs := parseAbsolute_none_of_relBare hp
    have hrat := parseRelAt_none_of_relBare hp
    have hmk1 : mkDatetime now.year (monIdx mon) d 0 0
        = Except.ok (mskEpoch now.year (monIdx mon) d 0 0 0) := by
      unfold mkDatetime
      rw [if_pos hv1]
    have hmk2 : mkDatetime (now.year - 1) (monIdx mon) d 0 0
        = Except.ok (mskEpoch (now.year - 1) (monIdx mon) d 0 0 0) := by
      unfold mkDatetime
      rw [if_pos hv2]
    simp only [normalize_date, if_neg hs, habs, hrat, hp, hmk1]
    split
    · exact hmk2
    · rfl

/-- Witness for C5 at two concrete date texts against the reference
instant 2024-01-05 12:00 Moscow: "20 dec" resolves more than one day in
the future and rolls back one year; "5 jan at 10:30pm" against
2024-05-10 stays in the reference year. -/
theorem normalize_date_relative_year_witness :
    normalize_date (some "5 jan at 10:30pm") ⟨2024, 5, 10, 12, 0, 0⟩ = Except.ok
      (if 86400 < mskEpoch 2024 (monIdx "jan".data) 5 (adjustHour 10 (some true)) 30 0
          - NowDT.epoch ⟨2024, 5, 10, 12, 0, 0⟩
       then mskEpoch (2024 - 1) (monIdx "jan".data) 5 (adjustHour 10 (some true)) 30 0
       else mskEpoch 2024 (monIdx "jan".data) 5 (adjustHour 10 (some true)) 30 0) ∧
    normalize_date (some "20 dec") ⟨2024, 1, 5, 12, 0, 0⟩ = Except.ok
      (if 86400 < mskEpoch 2024 (monIdx "dec".data) 20 0 0 0
          - NowDT.epoch ⟨2024, 1, 5, 12, 0, 0⟩
       then mskEpoch (2024 - 1) (monIdx "dec".data) 20 0 0 0
       else mskEpoch 2024 (monIdx "dec".data) 20 0 0 0) :=
  ⟨normalize_date_relative_year.1 ⟨2024, 5, 10, 12, 0, 0⟩ "5 jan at 10:30pm"
      5 ("jan".data) 10 30 (some true) (by decide) (by decide) (by decide) (by decide),
   normalize_date_relative_year.2 ⟨2024, 1, 5, 12, 0, 0⟩ "20 dec"
      20 ("dec".data) (by decide) (by decide) (by decide) (by decide)⟩
